import Mathlib

/-! ZipUtility: path and format normalisation, job dispatch and worker closures.

A shallow embedding of `Source/ZipUtility/Private/ZipFileFunctionLibrary.cpp`.

* `FString` is a sequence of characters (no embedded NUL is assumed, as the
  source passes the character buffers through `%s`).
* The engine string primitives the source calls (`FString::Find`,
  `FString::Split`, `FString::Replace`) are written out after their engine
  behaviour for the arguments used here.
* The codec (7zpp) is opaque: a worker closure records each call it makes on
  its codec session, and the answers of the codec come from a `Host` record.
* Dispatchers are queues of captured closures; every closure is kept as data
  (`Job`) together with the function that runs its body (`Job.run`).
-/

set_option autoImplicit false

namespace ZipUtility

/-! ## Strings -/

/-- Engine string: the characters of an `FString`, terminator left out. -/
abbrev FString := List Char

/-- The `TEXT("...")` literal of the source. -/
def TEXT (s : String) : FString := s.toList

/-- Engine `FString::ToUpper`, used by the case-insensitive searches. -/
def ToUpper (s : FString) : FString := s.map Char.toUpper

/-- Does `sub` occur in `s` at position `i` (the inner `for j` loop of
`FString::Find`)? -/
def occursAt (s sub : FString) (i : Nat) : Bool :=
  (s.drop i).take sub.length == sub

/-- The outer loop of `FString::Find` searching from the end:
`for (i = k - 1; i >= 0; i--) if (occurs at i) return i; return INDEX_NONE`. -/
def findDown (s sub : FString) : Nat → Option Nat
  | 0 => none
  | k + 1 => if occursAt s sub k then some k else findDown s sub k

/-- Engine `FString::Find(SubStr, ESearchCase::IgnoreCase, ESearchDir::FromEnd)`:
both strings are upper-cased once, then the last occurrence is searched,
starting at `Len() - max(1, Strlen(SubStr))`. An empty string holds nothing. -/
def FindFromEnd (s sub : FString) : Option Nat :=
  if s.length = 0 then none
  else findDown (ToUpper s) (ToUpper sub) (s.length + 1 - max 1 sub.length)

/-- Engine `FString::Split(InS, &LeftS, &RightS, IgnoreCase, FromEnd)`:
`none` is the `false` return (outputs untouched), otherwise
`Left(InPos)` and `Mid(InPos + InS.Len())`. -/
def Split (s InS : FString) : Option (FString × FString) :=
  match FindFromEnd s InS with
  | none => none
  | some InPos => some (s.take InPos, s.drop (InPos + InS.length))

/-- Engine `FString::Replace(From, To)` for a one-character `From` and a
one-character `To`: every occurrence is replaced. -/
def Replace (s : FString) (From To : Char) : FString :=
  s.map fun c => if c = From then To else c

/-- Source `ReversePathSlashes`: `forwardPath.Replace(TEXT("/"), TEXT("\\"))`. -/
def ReversePathSlashes (forwardPath : FString) : FString :=
  Replace forwardPath '/' '\\'

/-- Source `isValidDirectory`: split at the last `/`, else at the last `\`.
`some (directory, fileName)` is the `true` return with both outputs,
`none` is the `false` return. -/
def isValidDirectory (path : FString) : Option (FString × FString) :=
  match Split path (TEXT "/") with
  | some r => some r
  | none =>
    --try a back split
    match Split path (TEXT "\\") with
    | some r => some r
    | none => none

/-! ## Enumerations and the table functions -/

/-- Source enum `ZipUtilityCompressionFormat`, carried as a byte
(`TEnumAsByte`): the eleven enumerators, and `unlisted raw` for a byte value
that is none of them (the `default:` arm of the switches). -/
inductive ZipUtilityCompressionFormat
  | COMPRESSION_FORMAT_UNKNOWN
  | COMPRESSION_FORMAT_SEVEN_ZIP
  | COMPRESSION_FORMAT_ZIP
  | COMPRESSION_FORMAT_GZIP
  | COMPRESSION_FORMAT_BZIP2
  | COMPRESSION_FORMAT_RAR
  | COMPRESSION_FORMAT_TAR
  | COMPRESSION_FORMAT_ISO
  | COMPRESSION_FORMAT_CAB
  | COMPRESSION_FORMAT_LZMA
  | COMPRESSION_FORMAT_LZMA86
  | unlisted (raw : Nat)
  deriving DecidableEq, Repr

/-- Source enum `ZipUtilityCompressionLevel`, with `unlisted raw` for a byte
value that is none of the three enumerators. -/
inductive ZipUtilityCompressionLevel
  | COMPRESSION_LEVEL_NONE
  | COMPRESSION_LEVEL_FAST
  | COMPRESSION_LEVEL_NORMAL
  | unlisted (raw : Nat)
  deriving DecidableEq, Repr

/-- Completion tag handed to `OnDone`. Modelled from the spec: the enum
`EZipUtilityCompletionState` is declared in a header that is not part of the
sources; the spec names Success and FailureUnknown. -/
inductive EZipUtilityCompletionState
  | SUCCESS
  | FAILURE_UNKNOWN
  deriving DecidableEq, Repr

namespace SevenZip

/-- Codec library enum `SevenZip::CompressionFormat`, the values the source
names. -/
inductive CompressionFormat
  | Unknown | SevenZip | Zip | GZip | BZip2 | Rar | Tar | Iso | Cab | Lzma | Lzma86
  deriving DecidableEq, Repr

/-- Codec library enum `SevenZip::CompressionLevel`, the values the source
names. -/
inductive CompressionLevel
  | None | Fast | Normal
  deriving DecidableEq, Repr

end SevenZip

open ZipUtilityCompressionFormat ZipUtilityCompressionLevel

/-- Source `libZipLevelFromUELevel`. -/
def libZipLevelFromUELevel (ueLevel : ZipUtilityCompressionLevel) : SevenZip.CompressionLevel :=
  match ueLevel with
  | COMPRESSION_LEVEL_NONE => SevenZip.CompressionLevel.None
  | COMPRESSION_LEVEL_FAST => SevenZip.CompressionLevel.Fast
  | COMPRESSION_LEVEL_NORMAL => SevenZip.CompressionLevel.Normal
  | _ => SevenZip.CompressionLevel.None

/-- Source `libZipFormatFromUEFormat`. -/
def libZipFormatFromUEFormat (ueFormat : ZipUtilityCompressionFormat) : SevenZip.CompressionFormat :=
  match ueFormat with
  | COMPRESSION_FORMAT_UNKNOWN => SevenZip.CompressionFormat.Unknown
  | COMPRESSION_FORMAT_SEVEN_ZIP => SevenZip.CompressionFormat.SevenZip
  | COMPRESSION_FORMAT_ZIP => SevenZip.CompressionFormat.Zip
  | COMPRESSION_FORMAT_GZIP => SevenZip.CompressionFormat.GZip
  | COMPRESSION_FORMAT_BZIP2 => SevenZip.CompressionFormat.BZip2
  | COMPRESSION_FORMAT_RAR => SevenZip.CompressionFormat.Rar
  | COMPRESSION_FORMAT_TAR => SevenZip.CompressionFormat.Tar
  | COMPRESSION_FORMAT_ISO => SevenZip.CompressionFormat.Iso
  | COMPRESSION_FORMAT_CAB => SevenZip.CompressionFormat.Cab
  | COMPRESSION_FORMAT_LZMA => SevenZip.CompressionFormat.Lzma
  | COMPRESSION_FORMAT_LZMA86 => SevenZip.CompressionFormat.Lzma86
  | _ => SevenZip.CompressionFormat.Unknown

/-- Source `defaultExtensionFromUEFormat`. -/
def defaultExtensionFromUEFormat (ueFormat : ZipUtilityCompressionFormat) : FString :=
  match ueFormat with
  | COMPRESSION_FORMAT_UNKNOWN => TEXT ".dat"
  | COMPRESSION_FORMAT_SEVEN_ZIP => TEXT ".7z"
  | COMPRESSION_FORMAT_ZIP => TEXT ".zip"
  | COMPRESSION_FORMAT_GZIP => TEXT ".gz"
  | COMPRESSION_FORMAT_BZIP2 => TEXT ".bz2"
  | COMPRESSION_FORMAT_RAR => TEXT ".rar"
  | COMPRESSION_FORMAT_TAR => TEXT ".tar"
  | COMPRESSION_FORMAT_ISO => TEXT ".iso"
  | COMPRESSION_FORMAT_CAB => TEXT ".cab"
  | COMPRESSION_FORMAT_LZMA => TEXT ".lzma"
  | COMPRESSION_FORMAT_LZMA86 => TEXT ".lzma86"
  | _ => TEXT ".dat"

/-! ## Objects, sinks and the Operation Handle -/

/-- Identity of an engine object (a `UObject*`): a caller's sink target, a
lambda delegate, an Operation Handle. -/
abbrev UObject := Nat

/-- Identity of a caller-supplied `TFunction`. -/
abbrev TFunction := Nat

/-- Reference to a queued work item (`IQueuedWork*`): its place in the pool
queue. -/
abbrev IQueuedWork := Nat

/-- The stack-allocated sink of a worker closure, `SevenZipCallbackHandler`,
with the one field the source assigns. -/
structure SevenZipCallbackHandler where
  progressDelegate : UObject
  deriving DecidableEq, Repr

/-- Modelled from the spec: the Operation Handle `UZipOperation`, whose class
is not part of the sources. It holds a nullable reference to the active
Callback Sink and a nullable reference to the queued-work item. -/
structure UZipOperation where
  CallbackHandler : Option SevenZipCallbackHandler
  ThreadPoolWorker : Option IQueuedWork
  deriving DecidableEq, Repr

/-- Modelled from the spec: `UZipOperation::SetCallbackHandler` (class not
part of the sources) writes the sink reference. -/
def UZipOperation.SetCallbackHandler (op : UZipOperation)
    (handler : Option SevenZipCallbackHandler) : UZipOperation :=
  { op with CallbackHandler := handler }

/-- Modelled from the spec: `UZipOperation::SetThreadPoolWorker` (class not
part of the sources) writes the queued-work reference. -/
def UZipOperation.SetThreadPoolWorker (op : UZipOperation)
    (work : Option IQueuedWork) : UZipOperation :=
  { op with ThreadPoolWorker := work }

/-- A method of the callback interface invoked on a sink target. Modelled
from the spec: `IZipUtilityInterface` is declared in a header that is not part
of the sources; the spec lists progress, done and entry-found. -/
inductive SinkCall
  | OnProgress (target : UObject) (fraction : ℚ)
  | OnDone (target : UObject) (path : FString) (state : EZipUtilityCompletionState)
  | OnFileFound (target : UObject) (index : Nat) (name : FString) (size : Nat)
  deriving DecidableEq, Repr

/-! ## The opaque codec and the worker thread -/

/-- A call a worker closure makes on its codec session. The three
constructors of the session classes come first. -/
inductive CodecCall
  | SevenZipExtractor (archivePath : FString)
  | SevenZipLister (archivePath : FString)
  | SevenZipCompressor (archivePath : FString)
  | DetectCompressionFormat
  | SetCompressionFormat (format : SevenZip.CompressionFormat)
  | SetCompressionLevel (level : SevenZip.CompressionLevel)
  | ExtractFilesFromArchive (indices : List Nat) (numberFiles : Nat)
      (destinationDirectory : FString) (callback : SevenZipCallbackHandler)
  | ExtractArchive (destinationDirectory : FString) (callback : SevenZipCallbackHandler)
  | ListArchive (callback : SevenZipCallbackHandler)
  | CompressDirectory (path : FString) (callback : SevenZipCallbackHandler)
  | CompressFile (path : FString) (callback : SevenZipCallbackHandler)
  deriving DecidableEq, Repr

/-- Answers of the world outside a worker closure: the codec calls whose
result the source branches on, the file system query and the interface cast.
The results of the extract and compress calls are discarded by the source. -/
structure Host where
  DetectCompressionFormat : FString → Bool
  ListArchive : FString → Bool
  PathIsDirectory : FString → Bool
  Cast : UObject → Bool

/-- One observable effect of a worker: a codec call together with the thread
state `during` which it runs, a log line, a sink call enqueued for the game
thread (the home context), or a sink call made on the worker itself. -/
inductive Effect (σ : Type)
  | codec (call : CodecCall) (during : σ)
  | log (message : FString)
  | gameThread (task : SinkCall)
  | direct (call : SinkCall)
  deriving DecidableEq, Repr

/-- A running worker: the state it can write (the Operation Handle for the
pool closures) and the effects so far, oldest first. -/
structure Thread (σ : Type) where
  state : σ
  effects : List (Effect σ)
  deriving DecidableEq, Repr

namespace Thread

variable {σ : Type}

/-- A worker about to run its closure. -/
def start (s : σ) : Thread σ := { state := s, effects := [] }

/-- Write the thread state. -/
def update (t : Thread σ) (f : σ → σ) : Thread σ := { t with state := f t.state }

/-- Make a codec call. -/
def codec (t : Thread σ) (call : CodecCall) : Thread σ :=
  { t with effects := t.effects ++ [Effect.codec call t.state] }

/-- Source `UE_LOG`. -/
def UE_LOG (t : Thread σ) (message : FString) : Thread σ :=
  { t with effects := t.effects ++ [Effect.log message] }

/-- Source `UZipFileFunctionLibrary::RunLambdaOnGameThread`, for a lambda
that makes one sink call. -/
def RunLambdaOnGameThread (t : Thread σ) (task : SinkCall) : Thread σ :=
  { t with effects := t.effects ++ [Effect.gameThread task] }

/-- The codec calls made, oldest first. -/
def codecCalls (t : Thread σ) : List CodecCall :=
  t.effects.filterMap fun e => match e with
    | Effect.codec call _ => some call
    | _ => none

/-- The thread state during each codec call, oldest first. -/
def statesDuringCalls (t : Thread σ) : List σ :=
  t.effects.filterMap fun e => match e with
    | Effect.codec _ during => some during
    | _ => none

/-- The sink calls enqueued for the game thread, oldest first. -/
def gameThreadTasks (t : Thread σ) : List SinkCall :=
  t.effects.filterMap fun e => match e with
    | Effect.gameThread task => some task
    | _ => none

/-- The sink calls made on the worker itself, oldest first. -/
def directCalls (t : Thread σ) : List SinkCall :=
  t.effects.filterMap fun e => match e with
    | Effect.direct call => some call
    | _ => none

end Thread

/-- The conversion `indices[idx] = fileIndices[idx]` from `int32` to
`unsigned int`. -/
def toUnsigned (i : Int) : Nat := (i % 4294967296).toNat

/-- The format block shared by the extract and list closures:
detect when the format is unknown and fall back to Zip when detection fails,
else set the requested format. -/
def resolveReadFormat {σ : Type} (host : Host) (archivePath : FString)
    (format : ZipUtilityCompressionFormat) (t : Thread σ) : Thread σ :=
  if format = COMPRESSION_FORMAT_UNKNOWN then
    let t := t.codec CodecCall.DetectCompressionFormat
    if !host.DetectCompressionFormat archivePath then
      t.codec (CodecCall.SetCompressionFormat SevenZip.CompressionFormat.Zip)
    else t
  else
    t.codec (CodecCall.SetCompressionFormat (libZipFormatFromUEFormat format))

/-- The lambda of source `UnzipFilesOnBGThreadWithFormat`. -/
def UnzipFilesOnBGThreadWithFormat.closure (host : Host) (progressDelegate : UObject)
    (fileIndices : List Int) (archivePath destinationDirectory : FString)
    (format : ZipUtilityCompressionFormat) (t : Thread UZipOperation) : Thread UZipOperation :=
  let PrivateCallback : SevenZipCallbackHandler := { progressDelegate := progressDelegate }
  let t := t.update fun op => op.SetCallbackHandler (some PrivateCallback)
  let t := t.codec (CodecCall.SevenZipExtractor archivePath)
  let t := resolveReadFormat host archivePath format t
  -- Extract indices
  let numberFiles := fileIndices.length
  let indices := fileIndices.map toUnsigned
  -- Perform the extraction
  let t := t.codec
    (CodecCall.ExtractFilesFromArchive indices numberFiles destinationDirectory PrivateCallback)
  -- Null out the callback handler now that we're exiting
  t.update fun op => op.SetCallbackHandler none

/-- The lambda of source `UnzipOnBGThreadWithFormat`. -/
def UnzipOnBGThreadWithFormat.closure (host : Host) (progressDelegate : UObject)
    (archivePath destinationDirectory : FString)
    (format : ZipUtilityCompressionFormat) (t : Thread UZipOperation) : Thread UZipOperation :=
  let PrivateCallback : SevenZipCallbackHandler := { progressDelegate := progressDelegate }
  let t := t.update fun op => op.SetCallbackHandler (some PrivateCallback)
  let t := t.codec (CodecCall.SevenZipExtractor archivePath)
  let t := resolveReadFormat host archivePath format t
  let t := t.codec (CodecCall.ExtractArchive destinationDirectory PrivateCallback)
  -- Null out the callback handler now that we're exiting
  t.update fun op => op.SetCallbackHandler none

/-- The lambda of source `ListOnBGThread`. It holds no Operation Handle, so
it runs over any thread state and never writes it. -/
def ListOnBGThread.closure {σ : Type} (host : Host) (listDelegate : UObject)
    (path : FString) (format : ZipUtilityCompressionFormat) (_directory : FString)
    (t : Thread σ) : Thread σ :=
  let PrivateCallback : SevenZipCallbackHandler := { progressDelegate := listDelegate }
  let t := t.codec (CodecCall.SevenZipLister path)
  let t := resolveReadFormat host path format t
  let t := t.codec (CodecCall.ListArchive PrivateCallback)
  if !host.ListArchive path then
    -- Call OnDone with a failure message, make sure to call this on the game thread.
    if host.Cast listDelegate then
      let t := t.UE_LOG (TEXT "ZipUtility: Unknown failure for list operation on " ++ path)
      t.RunLambdaOnGameThread
        (SinkCall.OnDone listDelegate path EZipUtilityCompletionState.FAILURE_UNKNOWN)
    else t
  else t

/-- The lambda of source `ZipOnBGThread`. -/
def ZipOnBGThread.closure (host : Host) (progressDelegate : UObject)
    (fileName path : FString) (ueCompressionformat : ZipUtilityCompressionFormat)
    (ueCompressionlevel : ZipUtilityCompressionLevel) (directory : FString)
    (t : Thread UZipOperation) : Thread UZipOperation :=
  let PrivateCallback : SevenZipCallbackHandler := { progressDelegate := progressDelegate }
  let t := t.update fun op => op.SetCallbackHandler (some PrivateCallback)
  --Set the zip format
  let ueFormat := ueCompressionformat
  let (ueFormat, t) :=
    if ueFormat = COMPRESSION_FORMAT_UNKNOWN then
      (COMPRESSION_FORMAT_ZIP, t)
    --Disallow creating .rar archives as per unrar restriction
    else if ueFormat = COMPRESSION_FORMAT_RAR then
      (COMPRESSION_FORMAT_SEVEN_ZIP, t.UE_LOG (TEXT
        "ZipUtility: Rar compression not supported for creating archives, re-targeting as 7z."))
    else (ueFormat, t)
  --concatenate the output filename
  let outputFileName :=
    directory ++ TEXT "/" ++ fileName ++ defaultExtensionFromUEFormat ueFormat
  let t := t.codec (CodecCall.SevenZipCompressor (ReversePathSlashes outputFileName))
  let t := t.codec (CodecCall.SetCompressionFormat (libZipFormatFromUEFormat ueFormat))
  let t := t.codec (CodecCall.SetCompressionLevel (libZipLevelFromUELevel ueCompressionlevel))
  let t :=
    if host.PathIsDirectory path then
      t.codec (CodecCall.CompressDirectory (ReversePathSlashes path) PrivateCallback)
    else
      t.codec (CodecCall.CompressFile (ReversePathSlashes path) PrivateCallback)
  -- Null out the callback handler
  t.update fun op => op.SetCallbackHandler none

/-! ## Dispatchers and the public entry points -/

/-- A closure queued on the thread pool, with its captured variables. -/
inductive PoolJob
  | UnzipFiles (progressDelegate : UObject) (fileIndices : List Int)
      (archivePath destinationDirectory : FString)
      (format : ZipUtilityCompressionFormat) (ZipOperation : UObject)
  | Unzip (progressDelegate : UObject) (archivePath destinationDirectory : FString)
      (format : ZipUtilityCompressionFormat) (ZipOperation : UObject)
  | Zip (progressDelegate : UObject) (fileName path : FString)
      (ueCompressionformat : ZipUtilityCompressionFormat)
      (ueCompressionlevel : ZipUtilityCompressionLevel) (directory : FString)
      (ZipOperation : UObject)
  deriving DecidableEq, Repr

/-- A closure dispatched to any thread of the task graph: the listing lambda
with its captured variables. -/
structure ListJob where
  listDelegate : UObject
  path : FString
  format : ZipUtilityCompressionFormat
  directory : FString
  deriving DecidableEq, Repr

/-- Run the body of a pooled closure on a worker whose state is the closure's
Operation Handle. -/
def PoolJob.run (host : Host) : PoolJob → Thread UZipOperation → Thread UZipOperation
  | PoolJob.UnzipFiles progressDelegate fileIndices archivePath destinationDirectory format _ =>
    UnzipFilesOnBGThreadWithFormat.closure host progressDelegate fileIndices archivePath
      destinationDirectory format
  | PoolJob.Unzip progressDelegate archivePath destinationDirectory format _ =>
    UnzipOnBGThreadWithFormat.closure host progressDelegate archivePath destinationDirectory
      format
  | PoolJob.Zip progressDelegate fileName path ueCompressionformat ueCompressionlevel directory _ =>
    ZipOnBGThread.closure host progressDelegate fileName path ueCompressionformat
      ueCompressionlevel directory

/-- Run the body of the listing closure. -/
def ListJob.run (host : Host) (job : ListJob) (t : Thread Unit) : Thread Unit :=
  ListOnBGThread.closure host job.listDelegate job.path job.format job.directory t

/-- The lambda delegate built by the callback-style entry points: its object
and the two caller functions stored in it (the done callback also removes the
delegate from the root set). -/
structure UZULambdaDelegate where
  object : UObject
  OnDoneCallback : TFunction
  OnProgressCallback : TFunction
  deriving DecidableEq, Repr

/-- What the submitting side can change: the objects created by `NewObject`,
the Operation Handles among them, the rooted lambda delegates, the queue of
the thread pool and the closures dispatched to any thread. -/
structure World where
  objects : Nat
  operations : List (UObject × UZipOperation)
  lambdaDelegates : List UZULambdaDelegate
  threadPool : List PoolJob
  anyThread : List ListJob
  deriving DecidableEq, Repr

/-- Engine `NewObject<UZipOperation>()`: a fresh handle with both references
null. -/
def NewZipOperation (w : World) : UObject × World :=
  (w.objects,
    { w with
      objects := w.objects + 1
      operations := w.operations ++ [(w.objects, { CallbackHandler := none, ThreadPoolWorker := none })] })

/-- Handle method `ZipOperation->SetThreadPoolWorker(Work)` on the handle
object `ZipOperation`. -/
def World.SetThreadPoolWorker (w : World) (ZipOperation : UObject) (Work : IQueuedWork) : World :=
  { w with
    operations := w.operations.map fun entry =>
      if entry.1 = ZipOperation then (entry.1, entry.2.SetThreadPoolWorker (some Work)) else entry }

/-- Source `RunLambdaOnThreadPool`. Modelled from the spec:
`WFULambdaRunnable::AddLambdaToQueue` is not part of the sources; pool
submission queues the closure and returns a work reference. -/
def RunLambdaOnThreadPool (w : World) (InFunction : PoolJob) : IQueuedWork × World :=
  (w.threadPool.length, { w with threadPool := w.threadPool ++ [InFunction] })

/-- Source `RunLambdaOnAnyThread`: dispatch on the task graph, fire and
forget. -/
def RunLambdaOnAnyThread (w : World) (InFunction : ListJob) : World :=
  { w with anyThread := w.anyThread ++ [InFunction] }

/-- Source `UnzipFilesOnBGThreadWithFormat`. -/
def UnzipFilesOnBGThreadWithFormat (w : World) (fileIndices : List Int)
    (archivePath destinationDirectory : FString) (progressDelegate : UObject)
    (format : ZipUtilityCompressionFormat) : Option UObject × World :=
  let (ZipOperation, w) := NewZipOperation w
  let (Work, w) := RunLambdaOnThreadPool w
    (PoolJob.UnzipFiles progressDelegate fileIndices archivePath destinationDirectory format
      ZipOperation)
  let w := w.SetThreadPoolWorker ZipOperation Work
  (some ZipOperation, w)

/-- Source `UnzipOnBGThreadWithFormat`. -/
def UnzipOnBGThreadWithFormat (w : World) (archivePath destinationDirectory : FString)
    (progressDelegate : UObject) (format : ZipUtilityCompressionFormat) :
    Option UObject × World :=
  let (ZipOperation, w) := NewZipOperation w
  let (Work, w) := RunLambdaOnThreadPool w
    (PoolJob.Unzip progressDelegate archivePath destinationDirectory format ZipOperation)
  let w := w.SetThreadPoolWorker ZipOperation Work
  (some ZipOperation, w)

/-- Source `ListOnBGThread`. -/
def ListOnBGThread (w : World) (path directory : FString) (listDelegate : UObject)
    (format : ZipUtilityCompressionFormat) : World :=
  RunLambdaOnAnyThread w
    { listDelegate := listDelegate, path := path, format := format, directory := directory }

/-- Source `ZipOnBGThread`. -/
def ZipOnBGThread (w : World) (path fileName directory : FString) (progressDelegate : UObject)
    (ueCompressionformat : ZipUtilityCompressionFormat)
    (ueCompressionlevel : ZipUtilityCompressionLevel) : Option UObject × World :=
  let (ZipOperation, w) := NewZipOperation w
  let (Work, w) := RunLambdaOnThreadPool w
    (PoolJob.Zip progressDelegate fileName path ueCompressionformat ueCompressionlevel directory
      ZipOperation)
  let w := w.SetThreadPoolWorker ZipOperation Work
  (some ZipOperation, w)

/-- Source `UZipFileFunctionLibrary::UnzipFilesTo`. -/
def UnzipFilesTo (w : World) (fileIndices : List Int) (archivePath destinationPath : FString)
    (ZipUtilityInterfaceDelegate : UObject) (format : ZipUtilityCompressionFormat) :
    Option UObject × World :=
  UnzipFilesOnBGThreadWithFormat w fileIndices archivePath destinationPath
    ZipUtilityInterfaceDelegate format

/-- Source `UZipFileFunctionLibrary::UnzipFiles`; `none` is `nullptr`. -/
def UnzipFiles (w : World) (fileIndices : List Int) (ArchivePath : FString)
    (ZipUtilityInterfaceDelegate : UObject) (format : ZipUtilityCompressionFormat) :
    Option UObject × World :=
  --Check directory validity
  match isValidDirectory ArchivePath with
  | none => (none, w)
  | some (directory, _fileName) =>
    if fileIndices.length = 0 then (none, w)
    else UnzipFilesTo w fileIndices ArchivePath directory ZipUtilityInterfaceDelegate format

/-- Source `UZipFileFunctionLibrary::UnzipTo`. -/
def UnzipTo (w : World) (archivePath destinationPath : FString)
    (ZipUtilityInterfaceDelegate : UObject) (_format : ZipUtilityCompressionFormat) :
    Option UObject × World :=
  UnzipOnBGThreadWithFormat w archivePath destinationPath ZipUtilityInterfaceDelegate
    COMPRESSION_FORMAT_UNKNOWN

/-- Source `UZipFileFunctionLibrary::Unzip`; `none` is `nullptr`. -/
def Unzip (w : World) (archivePath : FString) (progressDelegate : UObject)
    (_format : ZipUtilityCompressionFormat) : Option UObject × World :=
  --Check directory validity
  match isValidDirectory archivePath with
  | none => (none, w)
  | some (directory, _fileName) =>
    UnzipTo w archivePath directory progressDelegate COMPRESSION_FORMAT_UNKNOWN

/-- Engine `NewObject<UZULambdaDelegate>()` followed by `AddToRoot`,
`SetOnDoneCallback` and `SetOnProgessCallback`, as both callback-style entry
points do. -/
def NewLambdaDelegate (w : World) (OnDoneCallback OnProgressCallback : TFunction) :
    UObject × World :=
  (w.objects,
    { w with
      objects := w.objects + 1
      lambdaDelegates := w.lambdaDelegates ++
        [{ object := w.objects, OnDoneCallback := OnDoneCallback,
           OnProgressCallback := OnProgressCallback }] })

/-- Source `UZipFileFunctionLibrary::UnzipWithLambda`. -/
def UnzipWithLambda (w : World) (ArchivePath : FString)
    (OnDoneCallback OnProgressCallback : TFunction) (format : ZipUtilityCompressionFormat) :
    Option UObject × World :=
  let (LambdaDelegate, w) := NewLambdaDelegate w OnDoneCallback OnProgressCallback
  Unzip w ArchivePath LambdaDelegate format

/-- Source `UZipFileFunctionLibrary::Zip`; `none` is `nullptr`. -/
def Zip (w : World) (path : FString) (progressDelegate : UObject)
    (Format : ZipUtilityCompressionFormat) (Level : ZipUtilityCompressionLevel) :
    Option UObject × World :=
  --Check directory validity
  match isValidDirectory path with
  | none => (none, w)
  | some (directory, fileName) =>
    ZipOnBGThread w path fileName directory progressDelegate Format Level

/-- Source `UZipFileFunctionLibrary::ZipWithLambda`. Its last line is
`return Zip(ArchivePath, LambdaDelegate, Format);`, so the level `Zip` gets
is the default argument of the declaration of `Zip`; that declaration is in a
header that is not part of the sources, hence the parameter `ZipDefaultLevel`. -/
def ZipWithLambda (ZipDefaultLevel : ZipUtilityCompressionLevel) (w : World)
    (ArchivePath : FString) (OnDoneCallback OnProgressCallback : TFunction)
    (Format : ZipUtilityCompressionFormat) (_Level : ZipUtilityCompressionLevel) :
    Option UObject × World :=
  let (LambdaDelegate, w) := NewLambdaDelegate w OnDoneCallback OnProgressCallback
  Zip w ArchivePath LambdaDelegate Format ZipDefaultLevel

/-- Source `UZipFileFunctionLibrary::ListFilesInArchive`. -/
def ListFilesInArchive (w : World) (path : FString) (listDelegate : UObject)
    (format : ZipUtilityCompressionFormat) : Bool × World :=
  --Check directory validity
  match isValidDirectory path with
  | none => (false, w)
  | some (directory, _fileName) =>
    (true, ListOnBGThread w path directory listDelegate format)

/-! ## Observations on a run, and concrete inputs -/

/-- The archive name a compressor session was constructed with. -/
def CodecCall.compressorName? : CodecCall → Option FString
  | CodecCall.SevenZipCompressor archivePath => some archivePath
  | _ => none

/-- The format of a `SetCompressionFormat` call. -/
def CodecCall.formatSet? : CodecCall → Option SevenZip.CompressionFormat
  | CodecCall.SetCompressionFormat format => some format
  | _ => none

/-- The level of a `SetCompressionLevel` call. -/
def CodecCall.levelSet? : CodecCall → Option SevenZip.CompressionLevel
  | CodecCall.SetCompressionLevel level => some level
  | _ => none

/-- The source path of a `CompressDirectory` or `CompressFile` call. -/
def CodecCall.compressSource? : CodecCall → Option FString
  | CodecCall.CompressDirectory path _ => some path
  | CodecCall.CompressFile path _ => some path
  | _ => none

/-- Is the call one of the codec operations (extract, list, compress)? -/
def CodecCall.isOperation : CodecCall → Bool
  | CodecCall.ExtractFilesFromArchive _ _ _ _ => true
  | CodecCall.ExtractArchive _ _ => true
  | CodecCall.ListArchive _ => true
  | CodecCall.CompressDirectory _ _ => true
  | CodecCall.CompressFile _ _ => true
  | _ => false

/-- Is the call the auto-detection? -/
def CodecCall.isDetect : CodecCall → Bool
  | CodecCall.DetectCompressionFormat => true
  | _ => false

/-- The sink target a pooled closure captured. -/
def PoolJob.progressDelegate : PoolJob → UObject
  | PoolJob.UnzipFiles progressDelegate _ _ _ _ _ => progressDelegate
  | PoolJob.Unzip progressDelegate _ _ _ _ => progressDelegate
  | PoolJob.Zip progressDelegate _ _ _ _ _ _ => progressDelegate

/-- The codec calls a pooled closure makes when it runs. -/
def PoolJob.codecCalls (host : Host) (job : PoolJob) (handle : UZipOperation) : List CodecCall :=
  (job.run host (Thread.start handle)).codecCalls

/-- The codec calls the listing closure makes when it runs. -/
def ListJob.codecCalls (host : Host) (job : ListJob) : List CodecCall :=
  (job.run host (Thread.start ())).codecCalls

/-- A world in which nothing has been created or submitted yet. -/
def World.initial : World :=
  { objects := 0, operations := [], lambdaDelegates := [], threadPool := [], anyThread := [] }

/-- A host that gives the same answers whatever it is asked about. -/
def Host.answering (detect list isDirectory implementsInterface : Bool) : Host :=
  { DetectCompressionFormat := fun _ => detect
    ListArchive := fun _ => list
    PathIsDirectory := fun _ => isDirectory
    Cast := fun _ => implementsInterface }

/-- A handle as `NewObject` leaves it: both references null. -/
def UZipOperation.fresh : UZipOperation :=
  { CallbackHandler := none, ThreadPoolWorker := none }

/-- The codec calls each queued pool closure makes when a worker runs it
over a fresh handle, in queue order. -/
def World.poolCodecCalls (host : Host) (w : World) : List (List CodecCall) :=
  w.threadPool.map fun job => job.codecCalls host UZipOperation.fresh

/-- The codec calls each dispatched listing closure makes when it runs, in
dispatch order. -/
def World.listCodecCalls (host : Host) (w : World) : List (List CodecCall) :=
  w.anyThread.map fun job => job.codecCalls host

namespace Spec

/-- Spec wording of the write target: Rar is remapped to SevenZip, Unknown
defaults to Zip, every other format is kept. -/
def writeFormat : ZipUtilityCompressionFormat → ZipUtilityCompressionFormat
  | COMPRESSION_FORMAT_RAR => COMPRESSION_FORMAT_SEVEN_ZIP
  | COMPRESSION_FORMAT_UNKNOWN => COMPRESSION_FORMAT_ZIP
  | f => f

/-- Spec wording of `normalizeSlashes`: replace every `/` by `\`. -/
def normalizeSlashes : FString → FString
  | [] => []
  | c :: rest => (if c = '/' then '\\' else c) :: normalizeSlashes rest

/-- Spec wording of `resolveFormat`: the identity through the enumeration;
a byte outside the enumeration names no codec format. -/
def resolveFormat : ZipUtilityCompressionFormat → Option SevenZip.CompressionFormat
  | COMPRESSION_FORMAT_UNKNOWN => some SevenZip.CompressionFormat.Unknown
  | COMPRESSION_FORMAT_SEVEN_ZIP => some SevenZip.CompressionFormat.SevenZip
  | COMPRESSION_FORMAT_ZIP => some SevenZip.CompressionFormat.Zip
  | COMPRESSION_FORMAT_GZIP => some SevenZip.CompressionFormat.GZip
  | COMPRESSION_FORMAT_BZIP2 => some SevenZip.CompressionFormat.BZip2
  | COMPRESSION_FORMAT_RAR => some SevenZip.CompressionFormat.Rar
  | COMPRESSION_FORMAT_TAR => some SevenZip.CompressionFormat.Tar
  | COMPRESSION_FORMAT_ISO => some SevenZip.CompressionFormat.Iso
  | COMPRESSION_FORMAT_CAB => some SevenZip.CompressionFormat.Cab
  | COMPRESSION_FORMAT_LZMA => some SevenZip.CompressionFormat.Lzma
  | COMPRESSION_FORMAT_LZMA86 => some SevenZip.CompressionFormat.Lzma86
  | ZipUtilityCompressionFormat.unlisted _ => none

end Spec

/-! ## Strings: splitting at a separator -/

theorem ofNat_sub_ne_separator (n : Nat) (h1 : 97 ≤ n) (h2 : n ≤ 122) :
    Char.ofNat (n - 32) ≠ '/' ∧ Char.ofNat (n - 32) ≠ '\\' := by
  interval_cases n <;> decide

theorem toUpper_eq_slash (c : Char) : c.toUpper = '/' ↔ c = '/' := by
  unfold Char.toUpper
  by_cases h : c.toNat ≥ 97 ∧ c.toNat ≤ 122
  · simp only [h, and_self, if_true]
    constructor
    · intro he; exact absurd he (ofNat_sub_ne_separator _ h.1 h.2).1
    · intro he; subst he; exact absurd h (by decide)
  · simp only [h, if_false]

theorem toUpper_eq_backslash (c : Char) : c.toUpper = '\\' ↔ c = '\\' := by
  unfold Char.toUpper
  by_cases h : c.toNat ≥ 97 ∧ c.toNat ≤ 122
  · simp only [h, and_self, if_true]
    constructor
    · intro he; exact absurd he (ofNat_sub_ne_separator _ h.1 h.2).2
    · intro he; subst he; exact absurd h (by decide)
  · simp only [h, if_false]

theorem toUpper_eq_separator (sep c : Char) (hs : sep = '/' ∨ sep = '\\') :
    c.toUpper = sep ↔ c = sep := by
  rcases hs with rfl | rfl
  · exact toUpper_eq_slash c
  · exact toUpper_eq_backslash c

theorem findDown_none (s sub : FString) (k : Nat) :
    findDown s sub k = none ↔ ∀ i, i < k → occursAt s sub i = false := by
  induction k with
  | zero => simp [findDown]
  | succ k ih =>
    unfold findDown
    by_cases h : occursAt s sub k = true
    · simp only [h, if_true]
      constructor
      · intro hc; cases hc
      · intro hall; have := hall k (Nat.lt_succ_self k); rw [h] at this; cases this
    · have h' : occursAt s sub k = false := by simpa using h
      simp only [h', Bool.false_eq_true, if_false]
      rw [ih]
      constructor
      · intro hall i hi
        rcases Nat.lt_succ_iff_lt_or_eq.mp hi with hlt | rfl
        · exact hall i hlt
        · exact h'
      · intro hall i hi; exact hall i (Nat.lt_succ_of_lt hi)

theorem findDown_some (s sub : FString) (k i : Nat) :
    findDown s sub k = some i ↔
      i < k ∧ occursAt s sub i = true ∧ ∀ j, i < j → j < k → occursAt s sub j = false := by
  induction k with
  | zero => simp [findDown]
  | succ k ih =>
    unfold findDown
    by_cases h : occursAt s sub k = true
    · simp only [h, if_true, Option.some.injEq]
      constructor
      · rintro rfl
        exact ⟨Nat.lt_succ_self _, h, fun j h1 h2 => absurd h1 (by omega)⟩
      · rintro ⟨h1, h2, h3⟩
        by_contra hne
        have hlt : i < k := by omega
        have := h3 k hlt (Nat.lt_succ_self k)
        rw [h] at this; cases this
    · have h' : occursAt s sub k = false := by simpa using h
      simp only [h', Bool.false_eq_true, if_false]
      rw [ih]
      constructor
      · rintro ⟨h1, h2, h3⟩
        refine ⟨Nat.lt_succ_of_lt h1, h2, fun j hj1 hj2 => ?_⟩
        rcases Nat.lt_succ_iff_lt_or_eq.mp hj2 with hlt | rfl
        · exact h3 j hj1 hlt
        · exact h'
      · rintro ⟨h1, h2, h3⟩
        have hne : i ≠ k := by rintro rfl; exact h h2
        exact ⟨by omega, h2, fun j hj1 hj2 => h3 j hj1 (Nat.lt_succ_of_lt hj2)⟩

theorem occursAt_separator (s : FString) (sep : Char) (hs : sep = '/' ∨ sep = '\\') (i : Nat) :
    occursAt (ToUpper s) (ToUpper [sep]) i = true ↔ s[i]? = some sep := by
  have hsub : ToUpper [sep] = [sep] := by
    rcases hs with rfl | rfl <;> rfl
  rw [hsub]
  unfold occursAt ToUpper
  rw [← List.map_drop, ← List.head?_drop]
  cases hd : s.drop i with
  | nil => simp
  | cons x xs =>
    simp [toUpper_eq_separator sep x hs]

theorem FindFromEnd_separator (s : FString) (sep : Char) :
    FindFromEnd s [sep] = findDown (ToUpper s) (ToUpper [sep]) s.length := by
  unfold FindFromEnd
  by_cases h : s.length = 0
  · simp [h, findDown]
  · simp [h]

/-- `Split` at a separator succeeds with `(d, f)` exactly when the string is
`d`, the separator, `f`, and `f` holds no further separator of that kind. -/
theorem Split_separator_some (s : FString) (sep : Char) (hs : sep = '/' ∨ sep = '\\')
    (d f : FString) :
    Split s [sep] = some (d, f) ↔ s = d ++ sep :: f ∧ sep ∉ f := by
  unfold Split
  rw [FindFromEnd_separator]
  constructor
  · intro h
    cases hf : findDown (ToUpper s) (ToUpper [sep]) s.length with
    | none => rw [hf] at h; cases h
    | some i =>
      rw [hf] at h
      simp only [Option.some.injEq, Prod.mk.injEq, List.length_singleton] at h
      obtain ⟨rfl, rfl⟩ := h
      rw [findDown_some] at hf
      obtain ⟨hi, hocc, hlast⟩ := hf
      rw [occursAt_separator s sep hs] at hocc
      have hget : s[i] = sep := by
        have := List.getElem?_eq_getElem hi
        rw [this] at hocc; exact Option.some.inj hocc
      constructor
      · rw [← hget, ← List.drop_eq_getElem_cons hi, List.take_append_drop]
      · intro hmem
        obtain ⟨j, hj, hjeq⟩ := List.getElem_of_mem hmem
        rw [List.getElem_drop] at hjeq
        have hjlt : i + 1 + j < s.length := by
          rw [List.length_drop] at hj; omega
        have := hlast (i + 1 + j) (by omega) hjlt
        have hocc2 : occursAt (ToUpper s) (ToUpper [sep]) (i + 1 + j) = true := by
          rw [occursAt_separator s sep hs, List.getElem?_eq_getElem hjlt, hjeq]
        rw [hocc2] at this; cases this
  · rintro ⟨rfl, hnot⟩
    have : findDown (ToUpper (d ++ sep :: f)) (ToUpper [sep]) (d ++ sep :: f).length
        = some d.length := by
      rw [findDown_some]
      refine ⟨by simp, ?_, ?_⟩
      · rw [occursAt_separator _ sep hs, List.getElem?_append_right (Nat.le_refl _)]; simp
      · intro j hj1 hj2
        cases hc : occursAt (ToUpper (d ++ sep :: f)) (ToUpper [sep]) j with
        | false => rfl
        | true =>
          rw [occursAt_separator _ sep hs] at hc
          exfalso; apply hnot
          rw [List.getElem?_append_right (by omega)] at hc
          obtain ⟨m, hm⟩ : ∃ m, j - d.length = m + 1 := ⟨j - d.length - 1, by omega⟩
          rw [hm, List.getElem?_cons_succ] at hc
          exact List.getElem?_mem hc
    rw [this]
    simp

/-- `Split` at a separator fails exactly when the string does not hold it. -/
theorem Split_separator_none (s : FString) (sep : Char) (hs : sep = '/' ∨ sep = '\\') :
    Split s [sep] = none ↔ sep ∉ s := by
  unfold Split
  rw [FindFromEnd_separator]
  cases hf : findDown (ToUpper s) (ToUpper [sep]) s.length with
  | none =>
    simp only [true_iff]
    rw [findDown_none] at hf
    intro hmem
    obtain ⟨j, hj, hjeq⟩ := List.getElem_of_mem hmem
    have := hf j hj
    have hocc2 : occursAt (ToUpper s) (ToUpper [sep]) j = true := by
      rw [occursAt_separator s sep hs, List.getElem?_eq_getElem hj, hjeq]
    rw [hocc2] at this; cases this
  | some i =>
    simp only [reduceCtorEq, false_iff, not_not]
    rw [findDown_some] at hf
    obtain ⟨hi, hocc, _⟩ := hf
    rw [occursAt_separator s sep hs] at hocc
    exact List.getElem?_mem hocc

theorem Split_separator_exists (s : FString) (sep : Char) (hs : sep = '/' ∨ sep = '\\')
    (hmem : sep ∈ s) : ∃ d f, Split s [sep] = some (d, f) ∧ s = d ++ sep :: f ∧ sep ∉ f := by
  cases h : Split s [sep] with
  | none => exact absurd hmem ((Split_separator_none s sep hs).mp h)
  | some r =>
    obtain ⟨d, f⟩ := r
    exact ⟨d, f, rfl, (Split_separator_some s sep hs d f).mp h⟩

/-- A path with a `/` is split at its last `/`. -/
theorem isValidDirectory_of_slash (path : FString) (h : '/' ∈ path) :
    ∃ directory fileName, isValidDirectory path = some (directory, fileName) ∧
      path = directory ++ '/' :: fileName ∧ '/' ∉ fileName := by
  obtain ⟨d, f, hsplit, heq, hnot⟩ := Split_separator_exists path '/' (Or.inl rfl) h
  refine ⟨d, f, ?_, heq, hnot⟩
  unfold isValidDirectory
  have : TEXT "/" = ['/'] := rfl
  rw [this, hsplit]

/-- A path without `/` but with a `\` is split at its last `\`. -/
theorem isValidDirectory_of_backslash (path : FString) (hno : '/' ∉ path) (h : '\\' ∈ path) :
    ∃ directory fileName, isValidDirectory path = some (directory, fileName) ∧
      path = directory ++ '\\' :: fileName ∧ '\\' ∉ fileName := by
  obtain ⟨d, f, hsplit, heq, hnot⟩ := Split_separator_exists path '\\' (Or.inr rfl) h
  refine ⟨d, f, ?_, heq, hnot⟩
  unfold isValidDirectory
  have h1 : TEXT "/" = ['/'] := rfl
  have h2 : TEXT "\\" = ['\\'] := rfl
  rw [h1, h2, (Split_separator_none path '/' (Or.inl rfl)).mpr hno, hsplit]

/-- The split fails exactly on the paths without any separator. -/
theorem isValidDirectory_eq_none (path : FString) :
    isValidDirectory path = none ↔ '/' ∉ path ∧ '\\' ∉ path := by
  constructor
  · intro h
    constructor
    · intro hmem
      obtain ⟨d, f, hv, _⟩ := isValidDirectory_of_slash path hmem
      rw [hv] at h; cases h
    · intro hmem
      by_cases hs : '/' ∈ path
      · obtain ⟨d, f, hv, _⟩ := isValidDirectory_of_slash path hs
        rw [hv] at h; cases h
      · obtain ⟨d, f, hv, _⟩ := isValidDirectory_of_backslash path hs hmem
        rw [hv] at h; cases h
  · rintro ⟨h1, h2⟩
    unfold isValidDirectory
    have e1 : TEXT "/" = ['/'] := rfl
    have e2 : TEXT "\\" = ['\\'] := rfl
    rw [e1, e2, (Split_separator_none path '/' (Or.inl rfl)).mpr h1,
      (Split_separator_none path '\\' (Or.inr rfl)).mpr h2]

/-- A path with a separator is accepted. -/
theorem isValidDirectory_of_separator (path : FString) (h : '/' ∈ path ∨ '\\' ∈ path) :
    ∃ directory fileName, isValidDirectory path = some (directory, fileName) := by
  cases hv : isValidDirectory path with
  | none =>
    have := (isValidDirectory_eq_none path).mp hv
    rcases h with h | h
    · exact absurd h this.1
    · exact absurd h this.2
  | some r => exact ⟨r.1, r.2, rfl⟩

/-! ## Claims on the path and format normaliser -/

/-- C5: `isValidDirectory` (the spec's `splitPath`) splits every path that
holds a `/` at its last `/`, also when a `\` follows it; it splits every path
that holds no `/` but a `\` at its last `\`; and it fails exactly on the
paths that hold neither character. -/
theorem isValidDirectory_splitPath (path : FString) :
    ('/' ∈ path → ∃ directory fileName,
        isValidDirectory path = some (directory, fileName) ∧
        '/' ∉ fileName ∧ directory ++ TEXT "/" ++ fileName = path) ∧
    ('/' ∉ path → '\\' ∈ path → ∃ directory fileName,
        isValidDirectory path = some (directory, fileName) ∧
        '/' ∉ fileName ∧ '\\' ∉ fileName ∧ directory ++ TEXT "\\" ++ fileName = path) ∧
    (isValidDirectory path = none ↔ '/' ∉ path ∧ '\\' ∉ path) := by
  refine ⟨?_, ?_, isValidDirectory_eq_none path⟩
  · intro h
    obtain ⟨d, f, hv, heq, hnot⟩ := isValidDirectory_of_slash path h
    refine ⟨d, f, hv, hnot, ?_⟩
    rw [heq]
    simp [TEXT]
  · intro hno h
    obtain ⟨d, f, hv, heq, hnot⟩ := isValidDirectory_of_backslash path hno h
    refine ⟨d, f, hv, ?_, hnot, ?_⟩
    · intro hmem
      apply hno
      rw [heq]
      simp [hmem]
    · rw [heq]
      simp [TEXT]

/-- C5 at concrete paths: `a/b\c` is split at the `/` although a `\` follows,
and `C:\x\y.txt` is split at its last `\`. -/
theorem isValidDirectory_splitPath_witness :
    (∃ directory fileName,
        isValidDirectory (TEXT "a/b\\c") = some (directory, fileName) ∧
        '/' ∉ fileName ∧ directory ++ TEXT "/" ++ fileName = TEXT "a/b\\c") ∧
    (∃ directory fileName,
        isValidDirectory (TEXT "C:\\x\\y.txt") = some (directory, fileName) ∧
        '/' ∉ fileName ∧ '\\' ∉ fileName ∧
        directory ++ TEXT "\\" ++ fileName = TEXT "C:\\x\\y.txt") ∧
    isValidDirectory (TEXT "a/b\\c") = some (TEXT "a", TEXT "b\\c") ∧
    isValidDirectory (TEXT "C:\\x\\y.txt") = some (TEXT "C:\\x", TEXT "y.txt") ∧
    isValidDirectory (TEXT "archive.zip") = none :=
  ⟨(isValidDirectory_splitPath (TEXT "a/b\\c")).1 (by decide),
   (isValidDirectory_splitPath (TEXT "C:\\x\\y.txt")).2.1 (by decide) (by decide),
   by decide, by decide, by decide⟩

/-- C7: `defaultExtensionFromUEFormat` follows the fixed table, maps every
byte outside the enumeration to `.dat`, and every result is non-empty, starts
with a dot and holds no path separator. -/
theorem defaultExtensionFromUEFormat_table :
    defaultExtensionFromUEFormat COMPRESSION_FORMAT_UNKNOWN = TEXT ".dat" ∧
    defaultExtensionFromUEFormat COMPRESSION_FORMAT_SEVEN_ZIP = TEXT ".7z" ∧
    defaultExtensionFromUEFormat COMPRESSION_FORMAT_ZIP = TEXT ".zip" ∧
    defaultExtensionFromUEFormat COMPRESSION_FORMAT_GZIP = TEXT ".gz" ∧
    defaultExtensionFromUEFormat COMPRESSION_FORMAT_BZIP2 = TEXT ".bz2" ∧
    defaultExtensionFromUEFormat COMPRESSION_FORMAT_RAR = TEXT ".rar" ∧
    defaultExtensionFromUEFormat COMPRESSION_FORMAT_TAR = TEXT ".tar" ∧
    defaultExtensionFromUEFormat COMPRESSION_FORMAT_ISO = TEXT ".iso" ∧
    defaultExtensionFromUEFormat COMPRESSION_FORMAT_CAB = TEXT ".cab" ∧
    defaultExtensionFromUEFormat COMPRESSION_FORMAT_LZMA = TEXT ".lzma" ∧
    defaultExtensionFromUEFormat COMPRESSION_FORMAT_LZMA86 = TEXT ".lzma86" ∧
    (∀ raw, defaultExtensionFromUEFormat (ZipUtilityCompressionFormat.unlisted raw)
      = TEXT ".dat") ∧
    (∀ f, defaultExtensionFromUEFormat f ≠ [] ∧
      (defaultExtensionFromUEFormat f).head? = some '.' ∧
      '/' ∉ defaultExtensionFromUEFormat f ∧ '\\' ∉ defaultExtensionFromUEFormat f) := by
  refine ⟨rfl, rfl, rfl, rfl, rfl, rfl, rfl, rfl, rfl, rfl, rfl, fun _ => rfl, ?_⟩
  intro f
  cases f <;>
    first
    | exact ⟨by decide, by decide, by decide, by decide⟩
    | (show TEXT ".dat" ≠ [] ∧ (TEXT ".dat").head? = some '.' ∧
          '/' ∉ TEXT ".dat" ∧ '\\' ∉ TEXT ".dat"
       exact ⟨by decide, by decide, by decide, by decide⟩)

/-! ## Worker closures: what a run does -/

theorem resolveReadFormat_state {σ : Type} (host : Host) (archivePath : FString)
    (format : ZipUtilityCompressionFormat) (t : Thread σ) :
    (resolveReadFormat host archivePath format t).state = t.state := by
  unfold resolveReadFormat
  by_cases hf : format = COMPRESSION_FORMAT_UNKNOWN
  · cases hd : host.DetectCompressionFormat archivePath <;> simp [hf, hd, Thread.codec]
  · simp [hf, Thread.codec]

/-- The format block run with an unknown format: one detection, then
`SetCompressionFormat(Zip)` when and only when detection fails. -/
theorem resolveReadFormat_unknown {σ : Type} (host : Host) (archivePath : FString)
    (t : Thread σ) :
    resolveReadFormat host archivePath COMPRESSION_FORMAT_UNKNOWN t =
      { state := t.state
        effects := t.effects ++ Effect.codec CodecCall.DetectCompressionFormat t.state ::
          (if host.DetectCompressionFormat archivePath then []
           else [Effect.codec (CodecCall.SetCompressionFormat SevenZip.CompressionFormat.Zip)
                  t.state]) } := by
  unfold resolveReadFormat
  cases hd : host.DetectCompressionFormat archivePath <;> simp [hd, Thread.codec]

/-- The format block run with any other format: the requested format is set
and detection is not run. -/
theorem resolveReadFormat_known {σ : Type} (host : Host) (archivePath : FString)
    (format : ZipUtilityCompressionFormat) (hf : format ≠ COMPRESSION_FORMAT_UNKNOWN)
    (t : Thread σ) :
    resolveReadFormat host archivePath format t =
      { state := t.state
        effects := t.effects ++
          [Effect.codec (CodecCall.SetCompressionFormat (libZipFormatFromUEFormat format))
            t.state] } := by
  unfold resolveReadFormat
  simp [hf, Thread.codec]

/-- C9: every pooled worker closure (compress, extract-archive,
extract-by-indices), run from any handle state, makes at least one codec call,
has its own sink in the handle during every codec call, leaves the handle
with a null sink reference when it returns, and never changes the handle's
queued-work reference. -/
theorem closure_sink_attach_detach (host : Host) (job : PoolJob) (handle : UZipOperation) :
    (job.run host (Thread.start handle)).statesDuringCalls ≠ [] ∧
    (∀ during ∈ (job.run host (Thread.start handle)).statesDuringCalls,
      during.CallbackHandler = some { progressDelegate := job.progressDelegate } ∧
      during.ThreadPoolWorker = handle.ThreadPoolWorker) ∧
    (job.run host (Thread.start handle)).state.CallbackHandler = none ∧
    (job.run host (Thread.start handle)).state.ThreadPoolWorker = handle.ThreadPoolWorker := by
  cases job with
  | UnzipFiles progressDelegate fileIndices archivePath destinationDirectory format op =>
    by_cases hf : format = COMPRESSION_FORMAT_UNKNOWN
    · subst hf
      cases hd : host.DetectCompressionFormat archivePath <;>
        simp [PoolJob.run, PoolJob.progressDelegate, UnzipFilesOnBGThreadWithFormat.closure,
          resolveReadFormat_unknown, hd, Thread.codec, Thread.update, Thread.start,
          Thread.statesDuringCalls, UZipOperation.SetCallbackHandler]
    · simp [PoolJob.run, PoolJob.progressDelegate, UnzipFilesOnBGThreadWithFormat.closure,
        resolveReadFormat_known _ _ _ hf, Thread.codec, Thread.update, Thread.start,
        Thread.statesDuringCalls, UZipOperation.SetCallbackHandler]
  | Unzip progressDelegate archivePath destinationDirectory format op =>
    by_cases hf : format = COMPRESSION_FORMAT_UNKNOWN
    · subst hf
      cases hd : host.DetectCompressionFormat archivePath <;>
        simp [PoolJob.run, PoolJob.progressDelegate, UnzipOnBGThreadWithFormat.closure,
          resolveReadFormat_unknown, hd, Thread.codec, Thread.update, Thread.start,
          Thread.statesDuringCalls, UZipOperation.SetCallbackHandler]
    · simp [PoolJob.run, PoolJob.progressDelegate, UnzipOnBGThreadWithFormat.closure,
        resolveReadFormat_known _ _ _ hf, Thread.codec, Thread.update, Thread.start,
        Thread.statesDuringCalls, UZipOperation.SetCallbackHandler]
  | Zip progressDelegate fileName path format level directory op =>
    cases hp : host.PathIsDirectory path <;> cases format <;>
      simp [PoolJob.run, PoolJob.progressDelegate, ZipOnBGThread.closure, hp,
        Thread.codec, Thread.update, Thread.start, Thread.UE_LOG,
        Thread.statesDuringCalls, UZipOperation.SetCallbackHandler]

/-- C9 at a concrete run: the extract-archive closure over a fresh handle
whose queued work is item 3, with detection failing. -/
theorem closure_sink_attach_detach_witness :
    (∀ during ∈ ((PoolJob.Unzip 7 (TEXT "a/b.zip") (TEXT "a") COMPRESSION_FORMAT_UNKNOWN 0).run
        (Host.answering false true false true)
        (Thread.start { CallbackHandler := none, ThreadPoolWorker := some 3 })).statesDuringCalls,
      during.CallbackHandler = some { progressDelegate := 7 } ∧
      during.ThreadPoolWorker = some 3) ∧
    ((PoolJob.Unzip 7 (TEXT "a/b.zip") (TEXT "a") COMPRESSION_FORMAT_UNKNOWN 0).run
        (Host.answering false true false true)
        (Thread.start { CallbackHandler := none, ThreadPoolWorker := some 3 })).statesDuringCalls
      = List.replicate 4 { CallbackHandler := some { progressDelegate := 7 },
                           ThreadPoolWorker := some 3 } :=
  ⟨(closure_sink_attach_detach (Host.answering false true false true)
      (PoolJob.Unzip 7 (TEXT "a/b.zip") (TEXT "a") COMPRESSION_FORMAT_UNKNOWN 0)
      { CallbackHandler := none, ThreadPoolWorker := some 3 }).2.1,
   by decide⟩

/-- C6: run with format Unknown, each of the extract-by-indices,
extract-archive and listing closures calls the detection exactly once, sets a
format (Zip) exactly when detection fails and sets none when it succeeds, and
makes its codec operation exactly once in both cases. -/
theorem unknown_format_fallback (host : Host) (delegate : UObject) (fileIndices : List Int)
    (archivePath destinationDirectory : FString) (ZipOperation : UObject)
    (handle : UZipOperation) :
    (((PoolJob.UnzipFiles delegate fileIndices archivePath destinationDirectory
          COMPRESSION_FORMAT_UNKNOWN ZipOperation).codecCalls host handle).count
        CodecCall.DetectCompressionFormat = 1 ∧
      ((PoolJob.UnzipFiles delegate fileIndices archivePath destinationDirectory
          COMPRESSION_FORMAT_UNKNOWN ZipOperation).codecCalls host handle).filterMap
        CodecCall.formatSet? =
          (if host.DetectCompressionFormat archivePath then []
           else [SevenZip.CompressionFormat.Zip]) ∧
      ((PoolJob.UnzipFiles delegate fileIndices archivePath destinationDirectory
          COMPRESSION_FORMAT_UNKNOWN ZipOperation).codecCalls host handle).filter
        CodecCall.isOperation =
          [CodecCall.ExtractFilesFromArchive (fileIndices.map toUnsigned) fileIndices.length
            destinationDirectory { progressDelegate := delegate }]) ∧
    (((PoolJob.Unzip delegate archivePath destinationDirectory
          COMPRESSION_FORMAT_UNKNOWN ZipOperation).codecCalls host handle).count
        CodecCall.DetectCompressionFormat = 1 ∧
      ((PoolJob.Unzip delegate archivePath destinationDirectory
          COMPRESSION_FORMAT_UNKNOWN ZipOperation).codecCalls host handle).filterMap
        CodecCall.formatSet? =
          (if host.DetectCompressionFormat archivePath then []
           else [SevenZip.CompressionFormat.Zip]) ∧
      ((PoolJob.Unzip delegate archivePath destinationDirectory
          COMPRESSION_FORMAT_UNKNOWN ZipOperation).codecCalls host handle).filter
        CodecCall.isOperation =
          [CodecCall.ExtractArchive destinationDirectory { progressDelegate := delegate }]) ∧
    ((ListJob.codecCalls host
          { listDelegate := delegate, path := archivePath,
            format := COMPRESSION_FORMAT_UNKNOWN, directory := destinationDirectory }).count
        CodecCall.DetectCompressionFormat = 1 ∧
      (ListJob.codecCalls host
          { listDelegate := delegate, path := archivePath,
            format := COMPRESSION_FORMAT_UNKNOWN, directory := destinationDirectory }).filterMap
        CodecCall.formatSet? =
          (if host.DetectCompressionFormat archivePath then []
           else [SevenZip.CompressionFormat.Zip]) ∧
      (ListJob.codecCalls host
          { listDelegate := delegate, path := archivePath,
            format := COMPRESSION_FORMAT_UNKNOWN, directory := destinationDirectory }).filter
        CodecCall.isOperation =
          [CodecCall.ListArchive { progressDelegate := delegate }]) := by
  refine ⟨?_, ?_, ?_⟩
  · cases hd : host.DetectCompressionFormat archivePath <;>
      simp [PoolJob.codecCalls, PoolJob.run, UnzipFilesOnBGThreadWithFormat.closure,
        resolveReadFormat_unknown, hd, Thread.codec, Thread.update, Thread.start,
        Thread.codecCalls, CodecCall.formatSet?, CodecCall.isOperation, List.count_cons]
  · cases hd : host.DetectCompressionFormat archivePath <;>
      simp [PoolJob.codecCalls, PoolJob.run, UnzipOnBGThreadWithFormat.closure,
        resolveReadFormat_unknown, hd, Thread.codec, Thread.update, Thread.start,
        Thread.codecCalls, CodecCall.formatSet?, CodecCall.isOperation, List.count_cons]
  · cases hd : host.DetectCompressionFormat archivePath <;>
      cases hl : host.ListArchive archivePath <;> cases hc : host.Cast delegate <;>
      simp [ListJob.codecCalls, ListJob.run, ListOnBGThread.closure,
        resolveReadFormat_unknown, hd, hl, hc, Thread.codec, Thread.update, Thread.start,
        Thread.UE_LOG, Thread.RunLambdaOnGameThread,
        Thread.codecCalls, CodecCall.formatSet?, CodecCall.isOperation, List.count_cons]

/-- C4: a listing accepted by `ListFilesInArchive` for a sink target that
implements the callback interface dispatches one listing closure; when the
codec's `ListArchive` returns false the closure enqueues exactly one call for
the game thread, `OnDone(path, FAILURE_UNKNOWN)` with the path as given, and
when it returns true it enqueues none; the closure itself makes no sink call
on the worker in either case. -/
theorem listing_failure_reporting (host : Host) (w : World) (path : FString)
    (listDelegate : UObject) (format : ZipUtilityCompressionFormat)
    (hpath : '/' ∈ path ∨ '\\' ∈ path) (hcast : host.Cast listDelegate = true) :
    ∃ job, ListFilesInArchive w path listDelegate format
        = (true, { w with anyThread := w.anyThread ++ [job] }) ∧
      (job.run host (Thread.start ())).directCalls = [] ∧
      (job.run host (Thread.start ())).gameThreadTasks =
        (if host.ListArchive path then []
         else [SinkCall.OnDone listDelegate path EZipUtilityCompletionState.FAILURE_UNKNOWN]) := by
  obtain ⟨directory, fileName, hv⟩ := isValidDirectory_of_separator path hpath
  refine ⟨{ listDelegate := listDelegate, path := path, format := format,
            directory := directory }, ?_, ?_, ?_⟩
  · simp [ListFilesInArchive, hv, ListOnBGThread, RunLambdaOnAnyThread]
  · by_cases hf : format = COMPRESSION_FORMAT_UNKNOWN
    · subst hf
      cases hd : host.DetectCompressionFormat path <;> cases hl : host.ListArchive path <;>
        simp [ListJob.run, ListOnBGThread.closure, resolveReadFormat_unknown, hd, hl, hcast,
          Thread.codec, Thread.start, Thread.UE_LOG, Thread.RunLambdaOnGameThread,
          Thread.directCalls]
    · cases hl : host.ListArchive path <;>
        simp [ListJob.run, ListOnBGThread.closure, resolveReadFormat_known _ _ _ hf, hl, hcast,
          Thread.codec, Thread.start, Thread.UE_LOG, Thread.RunLambdaOnGameThread,
          Thread.directCalls]
  · by_cases hf : format = COMPRESSION_FORMAT_UNKNOWN
    · subst hf
      cases hd : host.DetectCompressionFormat path <;> cases hl : host.ListArchive path <;>
        simp [ListJob.run, ListOnBGThread.closure, resolveReadFormat_unknown, hd, hl, hcast,
          Thread.codec, Thread.start, Thread.UE_LOG, Thread.RunLambdaOnGameThread,
          Thread.gameThreadTasks]
    · cases hl : host.ListArchive path <;>
        simp [ListJob.run, ListOnBGThread.closure, resolveReadFormat_known _ _ _ hf, hl, hcast,
          Thread.codec, Thread.start, Thread.UE_LOG, Thread.RunLambdaOnGameThread,
          Thread.gameThreadTasks]

/-- C4 at a concrete listing: `x/y.bin` with an undetectable format and a
failing `ListArchive`. -/
theorem listing_failure_reporting_witness :
    ∃ job, ListFilesInArchive World.initial (TEXT "x/y.bin") 5 COMPRESSION_FORMAT_UNKNOWN
        = (true, { World.initial with anyThread := World.initial.anyThread ++ [job] }) ∧
      (job.run (Host.answering false false false true) (Thread.start ())).directCalls = [] ∧
      (job.run (Host.answering false false false true) (Thread.start ())).gameThreadTasks =
        (if (Host.answering false false false true).ListArchive (TEXT "x/y.bin") then []
         else [SinkCall.OnDone 5 (TEXT "x/y.bin") EZipUtilityCompletionState.FAILURE_UNKNOWN]) :=
  listing_failure_reporting (Host.answering false false false true) World.initial
    (TEXT "x/y.bin") 5 COMPRESSION_FORMAT_UNKNOWN (Or.inl (by decide)) rfl

/-! ## Entry points: validation and submission -/

/-- C1: for a path without `/` and without `\`, `Unzip`, `UnzipFiles` and
`Zip` return null and `ListFilesInArchive` returns false, leaving the world
(queues, objects) untouched; `UnzipFiles` with an empty index list returns
null and leaves the world untouched whatever the path; for a path with a
separator (and a non-empty index list for `UnzipFiles`) each entry point
returns a handle, or true, and queues exactly one closure. -/
theorem validation_synchronous (w : World) (path : FString) (sink : UObject)
    (format : ZipUtilityCompressionFormat) (level : ZipUtilityCompressionLevel)
    (fileIndices : List Int) :
    (('/' ∉ path ∧ '\\' ∉ path) →
      Unzip w path sink format = (none, w) ∧
      UnzipFiles w fileIndices path sink format = (none, w) ∧
      Zip w path sink format level = (none, w) ∧
      ListFilesInArchive w path sink format = (false, w)) ∧
    UnzipFiles w [] path sink format = (none, w) ∧
    (('/' ∈ path ∨ '\\' ∈ path) →
      (∃ op job, (Unzip w path sink format).1 = some op ∧
        (Unzip w path sink format).2.threadPool = w.threadPool ++ [job] ∧
        (Unzip w path sink format).2.anyThread = w.anyThread) ∧
      (fileIndices ≠ [] →
        ∃ op job, (UnzipFiles w fileIndices path sink format).1 = some op ∧
          (UnzipFiles w fileIndices path sink format).2.threadPool = w.threadPool ++ [job] ∧
          (UnzipFiles w fileIndices path sink format).2.anyThread = w.anyThread) ∧
      (∃ op job, (Zip w path sink format level).1 = some op ∧
        (Zip w path sink format level).2.threadPool = w.threadPool ++ [job] ∧
        (Zip w path sink format level).2.anyThread = w.anyThread) ∧
      (∃ job, (ListFilesInArchive w path sink format).1 = true ∧
        (ListFilesInArchive w path sink format).2.anyThread = w.anyThread ++ [job] ∧
        (ListFilesInArchive w path sink format).2.threadPool = w.threadPool)) := by
  refine ⟨?_, ?_, ?_⟩
  · intro hno
    have hv := (isValidDirectory_eq_none path).mpr hno
    simp [Unzip, UnzipFiles, Zip, ListFilesInArchive, hv]
  · cases hv : isValidDirectory path with
    | none => simp [UnzipFiles, hv]
    | some r => simp [UnzipFiles, hv]
  · intro hsep
    obtain ⟨directory, fileName, hv⟩ := isValidDirectory_of_separator path hsep
    refine ⟨?_, ?_, ?_, ?_⟩
    · simp [Unzip, UnzipTo, UnzipOnBGThreadWithFormat, NewZipOperation, RunLambdaOnThreadPool,
        World.SetThreadPoolWorker, hv]
    · intro hne
      have hlen : fileIndices.length ≠ 0 := by
        intro h0; exact hne (List.length_eq_zero.mp h0)
      simp [UnzipFiles, UnzipFilesTo, UnzipFilesOnBGThreadWithFormat, NewZipOperation,
        RunLambdaOnThreadPool, World.SetThreadPoolWorker, hv, hne]
    · simp [Zip, ZipOnBGThread, NewZipOperation, RunLambdaOnThreadPool,
        World.SetThreadPoolWorker, hv]
    · simp [ListFilesInArchive, ListOnBGThread, RunLambdaOnAnyThread, hv]

/-- C1 at concrete inputs: the path `archive.zip` is rejected by all four
entry points, and the path `dir/archive.zip` is accepted by all four. -/
theorem validation_synchronous_witness :
    (Unzip World.initial (TEXT "archive.zip") 5 COMPRESSION_FORMAT_ZIP = (none, World.initial) ∧
      UnzipFiles World.initial [0, 2] (TEXT "archive.zip") 5 COMPRESSION_FORMAT_ZIP
        = (none, World.initial) ∧
      Zip World.initial (TEXT "archive.zip") 5 COMPRESSION_FORMAT_ZIP COMPRESSION_LEVEL_NORMAL
        = (none, World.initial) ∧
      ListFilesInArchive World.initial (TEXT "archive.zip") 5 COMPRESSION_FORMAT_ZIP
        = (false, World.initial)) ∧
    (∃ op job,
      (UnzipFiles World.initial [0, 2] (TEXT "dir/archive.zip") 5 COMPRESSION_FORMAT_ZIP).1
        = some op ∧
      (UnzipFiles World.initial [0, 2] (TEXT "dir/archive.zip") 5 COMPRESSION_FORMAT_ZIP).2.threadPool
        = World.initial.threadPool ++ [job] ∧
      (UnzipFiles World.initial [0, 2] (TEXT "dir/archive.zip") 5 COMPRESSION_FORMAT_ZIP).2.anyThread
        = World.initial.anyThread) :=
  ⟨(validation_synchronous World.initial (TEXT "archive.zip") 5 COMPRESSION_FORMAT_ZIP
      COMPRESSION_LEVEL_NORMAL [0, 2]).1 (by decide),
   ((validation_synchronous World.initial (TEXT "dir/archive.zip") 5 COMPRESSION_FORMAT_ZIP
      COMPRESSION_LEVEL_NORMAL [0, 2]).2.2 (Or.inl (by decide))).2.1 (by decide)⟩

/-! ## Compression: write format and output archive name -/

theorem ReversePathSlashes_eq_normalizeSlashes (s : FString) :
    ReversePathSlashes s = Spec.normalizeSlashes s := by
  induction s with
  | nil => rfl
  | cons c rest ih =>
    have : ReversePathSlashes (c :: rest)
        = (if c = '/' then '\\' else c) :: ReversePathSlashes rest := rfl
    rw [this, ih]; rfl

theorem ReversePathSlashes_append (a b : FString) :
    ReversePathSlashes (a ++ b) = ReversePathSlashes a ++ ReversePathSlashes b := by
  simp [ReversePathSlashes, Replace]

theorem ReversePathSlashes_of_not_mem (s : FString) (h : '/' ∉ s) :
    ReversePathSlashes s = s := by
  induction s with
  | nil => rfl
  | cons c rest ih =>
    have hc : c ≠ '/' := fun e => h (e ▸ List.mem_cons_self _ _)
    have hr : '/' ∉ rest := fun e => h (List.mem_cons_of_mem _ e)
    have : ReversePathSlashes (c :: rest)
        = (if c = '/' then '\\' else c) :: ReversePathSlashes rest := rfl
    rw [this, ih hr, if_neg hc]

theorem slash_not_mem_ReversePathSlashes (s : FString) : '/' ∉ ReversePathSlashes s := by
  induction s with
  | nil => simp [ReversePathSlashes, Replace]
  | cons c rest ih =>
    have : ReversePathSlashes (c :: rest)
        = (if c = '/' then '\\' else c) :: ReversePathSlashes rest := rfl
    rw [this]
    intro hmem
    rcases List.mem_cons.mp hmem with h | h
    · by_cases hc : c = '/'
      · rw [if_pos hc] at h; exact absurd h (by decide)
      · rw [if_neg hc] at h; exact hc h.symm
    · exact ih h

/-- The two ways a path can have been split. -/
theorem isValidDirectory_some (path directory fileName : FString)
    (h : isValidDirectory path = some (directory, fileName)) :
    path = directory ++ '/' :: fileName ∨
      ('/' ∉ path ∧ path = directory ++ '\\' :: fileName) := by
  by_cases hs : '/' ∈ path
  · obtain ⟨d, f, hv, heq, _⟩ := isValidDirectory_of_slash path hs
    rw [hv] at h
    simp only [Option.some.injEq, Prod.mk.injEq] at h
    obtain ⟨rfl, rfl⟩ := h
    exact Or.inl heq
  · by_cases hb : '\\' ∈ path
    · obtain ⟨d, f, hv, heq, _⟩ := isValidDirectory_of_backslash path hs hb
      rw [hv] at h
      simp only [Option.some.injEq, Prod.mk.injEq] at h
      obtain ⟨rfl, rfl⟩ := h
      exact Or.inr ⟨hs, heq⟩
    · rw [(isValidDirectory_eq_none path).mpr ⟨hs, hb⟩] at h
      cases h

/-- Joining the two halves of a split with `/` and reversing the slashes gives
the path with its slashes reversed, whichever separator it was split at. -/
theorem ReversePathSlashes_rejoin (path directory fileName : FString)
    (h : isValidDirectory path = some (directory, fileName)) :
    ReversePathSlashes (directory ++ TEXT "/" ++ fileName) = ReversePathSlashes path := by
  rcases isValidDirectory_some path directory fileName h with heq | ⟨hno, heq⟩
  · rw [heq]; simp [TEXT]
  · have hd : '/' ∉ directory := fun e => hno (by rw [heq]; simp [e])
    have hf : '/' ∉ fileName := fun e => hno (by rw [heq]; simp [e])
    rw [ReversePathSlashes_of_not_mem path hno, ReversePathSlashes_append,
      ReversePathSlashes_append, ReversePathSlashes_of_not_mem _ hd,
      ReversePathSlashes_of_not_mem _ hf, heq]
    simp [TEXT, ReversePathSlashes, Replace]

theorem slash_not_mem_defaultExtension (f : ZipUtilityCompressionFormat) :
    '/' ∉ defaultExtensionFromUEFormat f := by
  cases f <;> first | decide | (show '/' ∉ TEXT ".dat"; decide)

/-- The codec calls of the compression closure, in order. -/
theorem ZipOnBGThread_closure_codecCalls (host : Host) (progressDelegate : UObject)
    (fileName path : FString) (format : ZipUtilityCompressionFormat)
    (level : ZipUtilityCompressionLevel) (directory : FString) (handle : UZipOperation) :
    (ZipOnBGThread.closure host progressDelegate fileName path format level directory
        (Thread.start handle)).codecCalls =
      [CodecCall.SevenZipCompressor (ReversePathSlashes
          (directory ++ TEXT "/" ++ fileName
            ++ defaultExtensionFromUEFormat (Spec.writeFormat format))),
        CodecCall.SetCompressionFormat (libZipFormatFromUEFormat (Spec.writeFormat format)),
        CodecCall.SetCompressionLevel (libZipLevelFromUELevel level),
        if host.PathIsDirectory path then
          CodecCall.CompressDirectory (ReversePathSlashes path)
            { progressDelegate := progressDelegate }
        else
          CodecCall.CompressFile (ReversePathSlashes path)
            { progressDelegate := progressDelegate }] := by
  cases hp : host.PathIsDirectory path <;> cases format <;>
    simp [ZipOnBGThread.closure, hp, Spec.writeFormat, Thread.codec, Thread.update,
      Thread.start, Thread.UE_LOG, Thread.codecCalls]

theorem rar_not_suffix_of_extension (base : FString) (f : ZipUtilityCompressionFormat) :
    ¬ (TEXT ".rar" <:+ base ++ defaultExtensionFromUEFormat (Spec.writeFormat f)) := by
  intro h
  have h2 := List.reverse_prefix.mpr h
  rw [List.reverse_append, List.prefix_iff_eq_take] at h2
  cases f <;>
    simp [Spec.writeFormat, defaultExtensionFromUEFormat, TEXT] at h2

theorem libZipFormatFromUEFormat_resolveFormat (f : ZipUtilityCompressionFormat)
    (g : SevenZip.CompressionFormat) (h : Spec.resolveFormat f = some g) :
    libZipFormatFromUEFormat f = g := by
  cases f <;> simp [Spec.resolveFormat] at h <;> subst h <;> rfl

theorem libZipFormatFromUEFormat_writeFormat_ne_rar (f : ZipUtilityCompressionFormat) :
    libZipFormatFromUEFormat (Spec.writeFormat f) ≠ SevenZip.CompressionFormat.Rar := by
  cases f <;> simp [Spec.writeFormat, libZipFormatFromUEFormat]

/-- The closure `Zip` queues for an accepted path. -/
theorem Zip_of_split (w : World) (path directory fileName : FString) (sink : UObject)
    (format : ZipUtilityCompressionFormat) (level : ZipUtilityCompressionLevel)
    (h : isValidDirectory path = some (directory, fileName)) :
    (Zip w path sink format level).1 = some w.objects ∧
    (Zip w path sink format level).2.threadPool = w.threadPool ++
      [PoolJob.Zip sink fileName path format level directory w.objects] := by
  simp [Zip, ZipOnBGThread, NewZipOperation, RunLambdaOnThreadPool,
    World.SetThreadPoolWorker, h]

/-- The codec calls of the closure `Zip` queues for an accepted path. -/
theorem Zip_job_codecCalls (host : Host) (path directory fileName : FString) (sink : UObject)
    (format : ZipUtilityCompressionFormat) (level : ZipUtilityCompressionLevel)
    (op : UObject) (handle : UZipOperation)
    (h : isValidDirectory path = some (directory, fileName)) :
    (PoolJob.Zip sink fileName path format level directory op).codecCalls host handle =
      [CodecCall.SevenZipCompressor
          (ReversePathSlashes path ++ defaultExtensionFromUEFormat (Spec.writeFormat format)),
        CodecCall.SetCompressionFormat (libZipFormatFromUEFormat (Spec.writeFormat format)),
        CodecCall.SetCompressionLevel (libZipLevelFromUELevel level),
        if host.PathIsDirectory path then
          CodecCall.CompressDirectory (ReversePathSlashes path) { progressDelegate := sink }
        else
          CodecCall.CompressFile (ReversePathSlashes path) { progressDelegate := sink }] := by
  show (ZipOnBGThread.closure host sink fileName path format level directory
      (Thread.start handle)).codecCalls = _
  rw [ZipOnBGThread_closure_codecCalls, ReversePathSlashes_append,
    ReversePathSlashes_rejoin path directory fileName h,
    ReversePathSlashes_of_not_mem _ (slash_not_mem_defaultExtension _)]

/-- C2: for every accepted path and every requested format `f`, `Zip` returns
a handle and queues one closure; run, it sets the compressor's format exactly
once, to the codec format of `w f` (Rar to SevenZip, Unknown to Zip, else
`f`), never to Rar; the archive name ends with the default extension of `w f`
and never with `.rar`; and one compress call is made. -/
theorem Zip_write_format (host : Host) (w : World) (path : FString) (sink : UObject)
    (format : ZipUtilityCompressionFormat) (level : ZipUtilityCompressionLevel)
    (handle : UZipOperation) (hpath : '/' ∈ path ∨ '\\' ∈ path) :
    ∃ op job name operation,
      (Zip w path sink format level).1 = some op ∧
      (Zip w path sink format level).2.threadPool = w.threadPool ++ [job] ∧
      (job.codecCalls host handle).filterMap CodecCall.formatSet?
        = [libZipFormatFromUEFormat (Spec.writeFormat format)] ∧
      (∀ g, Spec.resolveFormat (Spec.writeFormat format) = some g →
        libZipFormatFromUEFormat (Spec.writeFormat format) = g) ∧
      libZipFormatFromUEFormat (Spec.writeFormat format) ≠ SevenZip.CompressionFormat.Rar ∧
      (job.codecCalls host handle).filterMap CodecCall.compressorName? = [name] ∧
      defaultExtensionFromUEFormat (Spec.writeFormat format) <:+ name ∧
      ¬ (TEXT ".rar" <:+ name) ∧
      (job.codecCalls host handle).filter CodecCall.isOperation = [operation] ∧
      operation.compressSource? = some (ReversePathSlashes path) := by
  obtain ⟨directory, fileName, hv⟩ := isValidDirectory_of_separator path hpath
  obtain ⟨h1, h2⟩ := Zip_of_split w path directory fileName sink format level hv
  have hc := Zip_job_codecCalls host path directory fileName sink format level w.objects
    handle hv
  refine ⟨w.objects, PoolJob.Zip sink fileName path format level directory w.objects,
    ReversePathSlashes path ++ defaultExtensionFromUEFormat (Spec.writeFormat format),
    (if host.PathIsDirectory path then
        CodecCall.CompressDirectory (ReversePathSlashes path) { progressDelegate := sink }
      else CodecCall.CompressFile (ReversePathSlashes path) { progressDelegate := sink }),
    h1, h2, ?_, ?_, ?_, ?_, ?_, ?_, ?_, ?_⟩
  · rw [hc]
    cases host.PathIsDirectory path <;> simp [CodecCall.formatSet?]
  · exact fun g hg => libZipFormatFromUEFormat_resolveFormat _ g hg
  · exact libZipFormatFromUEFormat_writeFormat_ne_rar format
  · rw [hc]
    cases host.PathIsDirectory path <;> simp [CodecCall.compressorName?]
  · exact List.suffix_append _ _
  · exact rar_not_suffix_of_extension _ format
  · rw [hc]
    cases hp : host.PathIsDirectory path <;> simp [CodecCall.isOperation]
  · cases hp : host.PathIsDirectory path <;> simp [CodecCall.compressSource?]

/-- C2 at a concrete request: `Zip` of `dir/data` with format Rar. -/
theorem Zip_write_format_witness :
    (∃ op job name operation,
      (Zip World.initial (TEXT "dir/data") 5 COMPRESSION_FORMAT_RAR COMPRESSION_LEVEL_FAST).1
        = some op ∧
      (Zip World.initial (TEXT "dir/data") 5 COMPRESSION_FORMAT_RAR
          COMPRESSION_LEVEL_FAST).2.threadPool = World.initial.threadPool ++ [job] ∧
      (job.codecCalls (Host.answering true true true true) UZipOperation.fresh).filterMap
          CodecCall.formatSet?
        = [libZipFormatFromUEFormat (Spec.writeFormat COMPRESSION_FORMAT_RAR)] ∧
      (∀ g, Spec.resolveFormat (Spec.writeFormat COMPRESSION_FORMAT_RAR) = some g →
        libZipFormatFromUEFormat (Spec.writeFormat COMPRESSION_FORMAT_RAR) = g) ∧
      libZipFormatFromUEFormat (Spec.writeFormat COMPRESSION_FORMAT_RAR)
        ≠ SevenZip.CompressionFormat.Rar ∧
      (job.codecCalls (Host.answering true true true true) UZipOperation.fresh).filterMap
          CodecCall.compressorName? = [name] ∧
      defaultExtensionFromUEFormat (Spec.writeFormat COMPRESSION_FORMAT_RAR) <:+ name ∧
      ¬ (TEXT ".rar" <:+ name) ∧
      (job.codecCalls (Host.answering true true true true) UZipOperation.fresh).filter
          CodecCall.isOperation = [operation] ∧
      operation.compressSource? = some (ReversePathSlashes (TEXT "dir/data"))) ∧
    (PoolJob.Zip 5 (TEXT "data") (TEXT "dir/data") COMPRESSION_FORMAT_RAR COMPRESSION_LEVEL_FAST
        (TEXT "dir") 0).codecCalls (Host.answering true true true true) UZipOperation.fresh
      = [CodecCall.SevenZipCompressor (TEXT "dir\\data.7z"),
         CodecCall.SetCompressionFormat SevenZip.CompressionFormat.SevenZip,
         CodecCall.SetCompressionLevel SevenZip.CompressionLevel.Fast,
         CodecCall.CompressDirectory (TEXT "dir\\data") { progressDelegate := 5 }] :=
  ⟨Zip_write_format (Host.answering true true true true) World.initial (TEXT "dir/data") 5
      COMPRESSION_FORMAT_RAR COMPRESSION_LEVEL_FAST UZipOperation.fresh (Or.inl (by decide)),
   by decide⟩

/-- C10: for every accepted path and every requested format, the archive name
the compressor is constructed with is the path with every `/` replaced by `\`
followed by the default extension of the effective write format, it holds no
`/`, and the source path handed to `CompressFile` or `CompressDirectory` is
the path with every `/` replaced by `\`. -/
theorem Zip_output_archive_name (host : Host) (w : World) (path : FString) (sink : UObject)
    (format : ZipUtilityCompressionFormat) (level : ZipUtilityCompressionLevel)
    (handle : UZipOperation) (hpath : '/' ∈ path ∨ '\\' ∈ path) :
    ∃ op job,
      (Zip w path sink format level).1 = some op ∧
      (Zip w path sink format level).2.threadPool = w.threadPool ++ [job] ∧
      (job.codecCalls host handle).filterMap CodecCall.compressorName?
        = [Spec.normalizeSlashes path
            ++ defaultExtensionFromUEFormat (Spec.writeFormat format)] ∧
      '/' ∉ Spec.normalizeSlashes path
            ++ defaultExtensionFromUEFormat (Spec.writeFormat format) ∧
      (job.codecCalls host handle).filterMap CodecCall.compressSource?
        = [Spec.normalizeSlashes path] := by
  obtain ⟨directory, fileName, hv⟩ := isValidDirectory_of_separator path hpath
  obtain ⟨h1, h2⟩ := Zip_of_split w path directory fileName sink format level hv
  have hc := Zip_job_codecCalls host path directory fileName sink format level w.objects
    handle hv
  rw [ReversePathSlashes_eq_normalizeSlashes] at hc
  refine ⟨w.objects, PoolJob.Zip sink fileName path format level directory w.objects,
    h1, h2, ?_, ?_, ?_⟩
  · rw [hc]
    cases host.PathIsDirectory path <;> simp [CodecCall.compressorName?]
  · rw [← ReversePathSlashes_eq_normalizeSlashes]
    intro hmem
    rcases List.mem_append.mp hmem with h | h
    · exact slash_not_mem_ReversePathSlashes path h
    · exact slash_not_mem_defaultExtension _ h
  · rw [hc]
    cases hp : host.PathIsDirectory path <;> simp [CodecCall.compressSource?]

/-- C10 at two concrete paths: `C:/a/b.txt`, split at a `/`, and `C:\a\b.txt`,
split at a `\`; both give the archive name `C:\a\b.txt.zip`. -/
theorem Zip_output_archive_name_witness :
    (∃ op job,
      (Zip World.initial (TEXT "C:\\a\\b.txt") 5 COMPRESSION_FORMAT_UNKNOWN
          COMPRESSION_LEVEL_NORMAL).1 = some op ∧
      (Zip World.initial (TEXT "C:\\a\\b.txt") 5 COMPRESSION_FORMAT_UNKNOWN
          COMPRESSION_LEVEL_NORMAL).2.threadPool = World.initial.threadPool ++ [job] ∧
      (job.codecCalls (Host.answering true true false true) UZipOperation.fresh).filterMap
          CodecCall.compressorName?
        = [Spec.normalizeSlashes (TEXT "C:\\a\\b.txt")
            ++ defaultExtensionFromUEFormat (Spec.writeFormat COMPRESSION_FORMAT_UNKNOWN)] ∧
      '/' ∉ Spec.normalizeSlashes (TEXT "C:\\a\\b.txt")
            ++ defaultExtensionFromUEFormat (Spec.writeFormat COMPRESSION_FORMAT_UNKNOWN) ∧
      (job.codecCalls (Host.answering true true false true) UZipOperation.fresh).filterMap
          CodecCall.compressSource?
        = [Spec.normalizeSlashes (TEXT "C:\\a\\b.txt")]) ∧
    (PoolJob.Zip 5 (TEXT "b.txt") (TEXT "C:/a/b.txt") COMPRESSION_FORMAT_UNKNOWN
        COMPRESSION_LEVEL_NORMAL (TEXT "C:/a") 0).codecCalls
        (Host.answering true true false true) UZipOperation.fresh
      = [CodecCall.SevenZipCompressor (TEXT "C:\\a\\b.txt.zip"),
         CodecCall.SetCompressionFormat SevenZip.CompressionFormat.Zip,
         CodecCall.SetCompressionLevel SevenZip.CompressionLevel.Normal,
         CodecCall.CompressFile (TEXT "C:\\a\\b.txt") { progressDelegate := 5 }] ∧
    (PoolJob.Zip 5 (TEXT "b.txt") (TEXT "C:\\a\\b.txt") COMPRESSION_FORMAT_UNKNOWN
        COMPRESSION_LEVEL_NORMAL (TEXT "C:\\a") 0).codecCalls
        (Host.answering true true false true) UZipOperation.fresh
      = [CodecCall.SevenZipCompressor (TEXT "C:\\a\\b.txt.zip"),
         CodecCall.SetCompressionFormat SevenZip.CompressionFormat.Zip,
         CodecCall.SetCompressionLevel SevenZip.CompressionLevel.Normal,
         CodecCall.CompressFile (TEXT "C:\\a\\b.txt") { progressDelegate := 5 }] :=
  ⟨Zip_output_archive_name (Host.answering true true false true) World.initial
      (TEXT "C:\\a\\b.txt") 5 COMPRESSION_FORMAT_UNKNOWN COMPRESSION_LEVEL_NORMAL
      UZipOperation.fresh (Or.inr (by decide)),
   by decide, by decide⟩

/-! ## Reading: the requested format -/

/-- The entry points that keep the requested format: `UnzipFilesTo`,
`UnzipFiles` (accepted path, some index) and `ListFilesInArchive` (accepted
path), called with a format other than Unknown, queue a closure that sets the
session to the codec format of the request and does not run the detection. -/
theorem read_format_kept (host : Host) (w : World) (fileIndices : List Int)
    (path destinationPath : FString) (sink : UObject) (format : ZipUtilityCompressionFormat)
    (hf : format ≠ COMPRESSION_FORMAT_UNKNOWN) :
    (∀ calls ∈ (UnzipFilesTo w fileIndices path destinationPath sink format).2.poolCodecCalls
          host |>.drop w.threadPool.length,
      calls.filterMap CodecCall.formatSet? = [libZipFormatFromUEFormat format] ∧
      calls.count CodecCall.DetectCompressionFormat = 0) ∧
    (∀ calls ∈ (UnzipFiles w fileIndices path sink format).2.poolCodecCalls host
          |>.drop w.threadPool.length,
      calls.filterMap CodecCall.formatSet? = [libZipFormatFromUEFormat format] ∧
      calls.count CodecCall.DetectCompressionFormat = 0) ∧
    (∀ calls ∈ (ListFilesInArchive w path sink format).2.listCodecCalls host
          |>.drop w.anyThread.length,
      calls.filterMap CodecCall.formatSet? = [libZipFormatFromUEFormat format] ∧
      calls.count CodecCall.DetectCompressionFormat = 0) := by
  have hfiles : ∀ dest op,
      ((PoolJob.UnzipFiles sink fileIndices path dest format op).codecCalls host
          UZipOperation.fresh).filterMap CodecCall.formatSet?
        = [libZipFormatFromUEFormat format] ∧
      ((PoolJob.UnzipFiles sink fileIndices path dest format op).codecCalls host
          UZipOperation.fresh).count CodecCall.DetectCompressionFormat = 0 := by
    intro dest op
    simp [PoolJob.codecCalls, PoolJob.run, UnzipFilesOnBGThreadWithFormat.closure,
      resolveReadFormat_known _ _ _ hf, Thread.codec, Thread.update, Thread.start,
      Thread.codecCalls, CodecCall.formatSet?, List.count_cons]
  have hlist : ∀ dir,
      (ListJob.codecCalls host
          { listDelegate := sink, path := path, format := format, directory := dir }).filterMap
          CodecCall.formatSet? = [libZipFormatFromUEFormat format] ∧
      (ListJob.codecCalls host
          { listDelegate := sink, path := path, format := format, directory := dir }).count
          CodecCall.DetectCompressionFormat = 0 := by
    intro dir
    cases hl : host.ListArchive path <;> cases hc : host.Cast sink <;>
      simp [ListJob.codecCalls, ListJob.run, ListOnBGThread.closure,
        resolveReadFormat_known _ _ _ hf, hl, hc, Thread.codec, Thread.start, Thread.UE_LOG,
        Thread.RunLambdaOnGameThread, Thread.codecCalls, CodecCall.formatSet?,
        List.count_cons]
  refine ⟨?_, ?_, ?_⟩
  · intro calls hmem
    simp [UnzipFilesTo, UnzipFilesOnBGThreadWithFormat, NewZipOperation, RunLambdaOnThreadPool,
      World.SetThreadPoolWorker, World.poolCodecCalls] at hmem
    subst hmem
    exact hfiles _ _
  · intro calls hmem
    cases hv : isValidDirectory path with
    | none =>
      simp [UnzipFiles, hv, World.poolCodecCalls] at hmem
      rw [List.drop_eq_nil_of_le (by simp)] at hmem
      exact absurd hmem (List.not_mem_nil _)
    | some r =>
      by_cases hn : fileIndices = []
      · simp [UnzipFiles, hv, hn, World.poolCodecCalls] at hmem
        rw [List.drop_eq_nil_of_le (by simp)] at hmem
        exact absurd hmem (List.not_mem_nil _)
      · simp [UnzipFiles, hv, hn, UnzipFilesTo, UnzipFilesOnBGThreadWithFormat,
          NewZipOperation, RunLambdaOnThreadPool, World.SetThreadPoolWorker,
          World.poolCodecCalls] at hmem
        subst hmem
        exact hfiles _ _
  · intro calls hmem
    cases hv : isValidDirectory path with
    | none =>
      simp [ListFilesInArchive, hv, World.listCodecCalls] at hmem
      rw [List.drop_eq_nil_of_le (by simp)] at hmem
      exact absurd hmem (List.not_mem_nil _)
    | some r =>
      simp [ListFilesInArchive, hv, ListOnBGThread, RunLambdaOnAnyThread,
        World.listCodecCalls] at hmem
      subst hmem
      exact hlist _

/-- `UnzipTo`, and `Unzip` for an accepted path, queue the extraction closure
with the format Unknown whatever format was requested; run, the closure calls
the detection and sets no format unless detection fails, and then it sets
Zip. -/
theorem Unzip_format_unknown (host : Host) (w : World) (archivePath destinationPath : FString)
    (sink : UObject) (format : ZipUtilityCompressionFormat) (handle : UZipOperation) :
    (UnzipTo w archivePath destinationPath sink format).2.threadPool = w.threadPool ++
      [PoolJob.Unzip sink archivePath destinationPath COMPRESSION_FORMAT_UNKNOWN w.objects] ∧
    (∀ directory fileName, isValidDirectory archivePath = some (directory, fileName) →
      (Unzip w archivePath sink format).2.threadPool = w.threadPool ++
        [PoolJob.Unzip sink archivePath directory COMPRESSION_FORMAT_UNKNOWN w.objects]) ∧
    (PoolJob.Unzip sink archivePath destinationPath COMPRESSION_FORMAT_UNKNOWN
        w.objects).codecCalls host handle =
      [CodecCall.SevenZipExtractor archivePath, CodecCall.DetectCompressionFormat] ++
      (if host.DetectCompressionFormat archivePath then []
       else [CodecCall.SetCompressionFormat SevenZip.CompressionFormat.Zip]) ++
      [CodecCall.ExtractArchive destinationPath { progressDelegate := sink }] := by
  refine ⟨?_, ?_, ?_⟩
  · simp [UnzipTo, UnzipOnBGThreadWithFormat, NewZipOperation, RunLambdaOnThreadPool,
      World.SetThreadPoolWorker]
  · intro directory fileName hv
    simp [Unzip, hv, UnzipTo, UnzipOnBGThreadWithFormat, NewZipOperation,
      RunLambdaOnThreadPool, World.SetThreadPoolWorker]
  · cases hd : host.DetectCompressionFormat archivePath <;>
      simp [PoolJob.codecCalls, PoolJob.run, UnzipOnBGThreadWithFormat.closure,
        resolveReadFormat_unknown, hd, Thread.codec, Thread.update, Thread.start,
        Thread.codecCalls]

/-- C3 at the failing input: `Unzip` and `UnzipTo` of `dir/a.rar` with format
Rar queue the extraction closure with format Unknown; run, it calls the
detection and never sets Rar (no format when detection succeeds, Zip when it
fails), whereas `UnzipFilesTo` with the same request sets Rar and does not
detect. -/
theorem Unzip_rar_request_runs_detection :
    (Unzip World.initial (TEXT "dir/a.rar") 5 COMPRESSION_FORMAT_RAR).2.threadPool
      = [PoolJob.Unzip 5 (TEXT "dir/a.rar") (TEXT "dir") COMPRESSION_FORMAT_UNKNOWN 0] ∧
    (UnzipTo World.initial (TEXT "dir/a.rar") (TEXT "out") 5 COMPRESSION_FORMAT_RAR).2.threadPool
      = [PoolJob.Unzip 5 (TEXT "dir/a.rar") (TEXT "out") COMPRESSION_FORMAT_UNKNOWN 0] ∧
    (Unzip World.initial (TEXT "dir/a.rar") 5 COMPRESSION_FORMAT_RAR).2.poolCodecCalls
        (Host.answering true true false true)
      = [[CodecCall.SevenZipExtractor (TEXT "dir/a.rar"),
          CodecCall.DetectCompressionFormat,
          CodecCall.ExtractArchive (TEXT "dir") { progressDelegate := 5 }]] ∧
    (Unzip World.initial (TEXT "dir/a.rar") 5 COMPRESSION_FORMAT_RAR).2.poolCodecCalls
        (Host.answering false true false true)
      = [[CodecCall.SevenZipExtractor (TEXT "dir/a.rar"),
          CodecCall.DetectCompressionFormat,
          CodecCall.SetCompressionFormat SevenZip.CompressionFormat.Zip,
          CodecCall.ExtractArchive (TEXT "dir") { progressDelegate := 5 }]] ∧
    (UnzipFilesTo World.initial [0] (TEXT "dir/a.rar") (TEXT "dir") 5
        COMPRESSION_FORMAT_RAR).2.poolCodecCalls (Host.answering true true false true)
      = [[CodecCall.SevenZipExtractor (TEXT "dir/a.rar"),
          CodecCall.SetCompressionFormat SevenZip.CompressionFormat.Rar,
          CodecCall.ExtractFilesFromArchive [0] 1 (TEXT "dir") { progressDelegate := 5 }]] := by
  refine ⟨by decide, by decide, by decide, by decide, by decide⟩

/-! ## Callback-style variants -/

/-- The callback-style variants agree with the sink variants on acceptance,
and `ZipWithLambda` on the archive name and the format: both reject exactly
the paths without separator, `UnzipWithLambda` is `Unzip` with the lambda
delegate as sink, and the compression closure of `ZipWithLambda` constructs
the compressor with the same name and sets the same format as that of `Zip`. -/
theorem lambda_variants_agree (host : Host) (d : ZipUtilityCompressionLevel) (w : World)
    (path : FString) (OnDone OnProgress : TFunction) (sink : UObject)
    (format : ZipUtilityCompressionFormat) (level : ZipUtilityCompressionLevel) :
    ((ZipWithLambda d w path OnDone OnProgress format level).1 = none ↔
      (Zip w path sink format level).1 = none) ∧
    ((UnzipWithLambda w path OnDone OnProgress format).1 = none ↔
      (Unzip w path sink format).1 = none) ∧
    UnzipWithLambda w path OnDone OnProgress format =
      Unzip (NewLambdaDelegate w OnDone OnProgress).2 path
        (NewLambdaDelegate w OnDone OnProgress).1 format ∧
    (((ZipWithLambda d w path OnDone OnProgress format level).2.poolCodecCalls host).drop
        w.threadPool.length).map (fun calls =>
          (calls.filterMap CodecCall.compressorName?, calls.filterMap CodecCall.formatSet?)) =
      (((Zip w path sink format level).2.poolCodecCalls host).drop
        w.threadPool.length).map (fun calls =>
          (calls.filterMap CodecCall.compressorName?, calls.filterMap CodecCall.formatSet?)) := by
  cases hv : isValidDirectory path with
  | none =>
    simp [ZipWithLambda, UnzipWithLambda, NewLambdaDelegate, Zip, Unzip, hv,
      World.poolCodecCalls]
  | some r =>
    obtain ⟨directory, fileName⟩ := r
    refine ⟨?_, ?_, rfl, ?_⟩
    · simp [ZipWithLambda, NewLambdaDelegate, Zip, ZipOnBGThread, NewZipOperation,
        RunLambdaOnThreadPool, World.SetThreadPoolWorker, hv]
    · simp [UnzipWithLambda, NewLambdaDelegate, Unzip, UnzipTo, UnzipOnBGThreadWithFormat,
        NewZipOperation, RunLambdaOnThreadPool, World.SetThreadPoolWorker, hv]
    · simp [ZipWithLambda, NewLambdaDelegate, Zip, ZipOnBGThread, NewZipOperation,
        RunLambdaOnThreadPool, World.SetThreadPoolWorker, hv, World.poolCodecCalls,
        Zip_job_codecCalls host path directory fileName _ format _ _ _ hv]
      constructor <;> cases host.PathIsDirectory path <;>
        simp [CodecCall.compressorName?, CodecCall.formatSet?]

/-- C8 at the failing input: `ZipWithLambda` of `dir/data` with format Zip and
level Fast queues a closure that captured the default level of `Zip` (taken
as Normal here) and sets the codec level Normal, where `Zip` with the same
arguments sets Fast; and whatever default level `Zip` declares, some
requested level is set differently by the two. -/
theorem ZipWithLambda_drops_level :
    (ZipWithLambda COMPRESSION_LEVEL_NORMAL World.initial (TEXT "dir/data") 1 2
        COMPRESSION_FORMAT_ZIP COMPRESSION_LEVEL_FAST).2.threadPool
      = [PoolJob.Zip 0 (TEXT "data") (TEXT "dir/data") COMPRESSION_FORMAT_ZIP
          COMPRESSION_LEVEL_NORMAL (TEXT "dir") 1] ∧
    (Zip World.initial (TEXT "dir/data") 5 COMPRESSION_FORMAT_ZIP
        COMPRESSION_LEVEL_FAST).2.threadPool
      = [PoolJob.Zip 5 (TEXT "data") (TEXT "dir/data") COMPRESSION_FORMAT_ZIP
          COMPRESSION_LEVEL_FAST (TEXT "dir") 0] ∧
    ((ZipWithLambda COMPRESSION_LEVEL_NORMAL World.initial (TEXT "dir/data") 1 2
        COMPRESSION_FORMAT_ZIP COMPRESSION_LEVEL_FAST).2.poolCodecCalls
        (Host.answering true true false true)).map (List.filterMap CodecCall.levelSet?)
      = [[SevenZip.CompressionLevel.Normal]] ∧
    ((Zip World.initial (TEXT "dir/data") 5 COMPRESSION_FORMAT_ZIP
        COMPRESSION_LEVEL_FAST).2.poolCodecCalls
        (Host.answering true true false true)).map (List.filterMap CodecCall.levelSet?)
      = [[SevenZip.CompressionLevel.Fast]] ∧
    (∀ d : ZipUtilityCompressionLevel, ∃ level : ZipUtilityCompressionLevel,
      ((ZipWithLambda d World.initial (TEXT "dir/data") 1 2
          COMPRESSION_FORMAT_ZIP level).2.poolCodecCalls
          (Host.answering true true false true)).map (List.filterMap CodecCall.levelSet?)
        ≠ ((Zip World.initial (TEXT "dir/data") 5 COMPRESSION_FORMAT_ZIP
          level).2.poolCodecCalls
          (Host.answering true true false true)).map (List.filterMap CodecCall.levelSet?)) := by
  refine ⟨by decide, by decide, by decide, by decide, ?_⟩
  have hv : isValidDirectory (TEXT "dir/data") = some (TEXT "dir", TEXT "data") := by decide
  intro d
  cases d with
  | COMPRESSION_LEVEL_NONE =>
    exact ⟨COMPRESSION_LEVEL_FAST, by decide⟩
  | COMPRESSION_LEVEL_FAST =>
    exact ⟨COMPRESSION_LEVEL_NONE, by decide⟩
  | COMPRESSION_LEVEL_NORMAL =>
    exact ⟨COMPRESSION_LEVEL_NONE, by decide⟩
  | unlisted raw =>
    refine ⟨COMPRESSION_LEVEL_FAST, ?_⟩
    simp [ZipWithLambda, NewLambdaDelegate, Zip, ZipOnBGThread, NewZipOperation,
      RunLambdaOnThreadPool, World.SetThreadPoolWorker, hv, World.poolCodecCalls,
      World.initial, Zip_job_codecCalls _ _ _ _ _ _ _ _ _ hv, Host.answering,
      CodecCall.levelSet?, libZipLevelFromUELevel]

end ZipUtility
